import Mathlib

/-!
# Order Fulfillment Ledger — verification of `src/api/orders.js`

Shallow embedding of the order/stock reconciliation component of the
koloa-inventory repository.  The definitions below are translated from the
route handlers in `src/api/orders.js` (order creation, full confirmation
("confirm"), partial reception ("receive item"), cancellation) and from the
order–number helper `generateOrderNumber`, together with the relational
schema recorded in `prisma/migrations/20251015141248_add_orders_system` and
`prisma/migrations/20251015154915_add_partial_reception_support`.

Modelling conventions:
* The Prisma-managed SQLite database is a `Db` record of three tables plus
  the AUTOINCREMENT counters.  Quantities and stock are `Int` (SQLite
  INTEGER), prices are `Rat` (SQLite REAL; the handlers only add and
  multiply prices, so the accumulation structure is captured exactly).
* Timestamps (`new Date()`) are an abstract `Nat` parameter `now`.
* Every handler performs all of its validations before its first database
  write, so a rejected request leaves the database untouched; accordingly
  each operation returns `Except ApiError (Db × output)` and carries the
  updated database only on success.
* Statuses are the literal strings `"pending" | "partial" | "completed" |
  "cancelled"` compared with `==`, as in the JavaScript source.
-/

namespace Koloa

/-- One row of the `InventoryItem` table (the columns the ledger reads:
`id`, `nombre`, `precio`, `stock`; the remaining CRUD-owned columns are
never touched by `orders.js`). -/
structure InventoryItem where
  id : Nat
  nombre : String
  precio : Rat
  stock : Int
  deriving DecidableEq, Repr

/-- One row of the `Order` table. -/
structure Order where
  id : Nat
  orderNumber : String
  type : String
  brand : Option String
  status : String
  totalItems : Int
  totalPrice : Rat
  createdAt : Nat
  completedAt : Option Nat
  notes : Option String
  userId : Nat
  deriving DecidableEq, Repr

/-- One row of the `OrderItem` table (an order line). -/
structure OrderItem where
  id : Nat
  orderId : Nat
  inventoryItemId : Nat
  quantityOrdered : Int
  quantityReceived : Int
  priceAtTime : Rat
  status : String
  receivedAt : Option Nat
  notes : Option String
  deriving DecidableEq, Repr

/-- The relational store: the three tables touched by `orders.js`, plus the
SQLite AUTOINCREMENT counters for the two tables the ledger inserts into. -/
structure Db where
  inventoryItems : List InventoryItem
  orders : List Order
  orderItems : List OrderItem
  nextOrderId : Nat
  nextOrderItemId : Nat
  deriving DecidableEq, Repr

/-- Error responses of the handlers: HTTP 400 with `{error}` / HTTP 404 with
`{error}` / HTTP 500 (the catch-all for database failures, e.g. a UNIQUE
constraint violation raised by Prisma). -/
inductive ApiError where
  | badRequest (msg : String)
  | notFound (msg : String)
  | internal (msg : String)
  deriving DecidableEq, Repr

/-- `prisma.inventoryItem.findUnique({ where: { id } })`. -/
def getProduct? (db : Db) (pid : Nat) : Option InventoryItem :=
  db.inventoryItems.find? (fun p => p.id == pid)

/-- `prisma.order.findUnique({ where: { id } })`. -/
def getOrder? (db : Db) (oid : Nat) : Option Order :=
  db.orders.find? (fun o => o.id == oid)

/-- Lookup of an order line by its (globally unique) primary key. -/
def getItem? (db : Db) (iid : Nat) : Option OrderItem :=
  db.orderItems.find? (fun it => it.id == iid)

/-- `prisma.orderItem.findFirst({ where: { orderId, id } })` — the lookup
used by the receive handler. -/
def findOrderItem? (db : Db) (oid iid : Nat) : Option OrderItem :=
  db.orderItems.find? (fun it => it.orderId == oid && it.id == iid)

/-- `prisma.inventoryItem.update({ where: { id: pid }, data: { stock } })`. -/
def updateProductStock (db : Db) (pid : Nat) (newStock : Int) : Db :=
  { db with inventoryItems :=
      db.inventoryItems.map (fun p => if p.id == pid then { p with stock := newStock } else p) }

/-- `prisma.orderItem.update({ where: { id: iid }, data: ... })`,
with `f` the field assignment. -/
def updateOrderItem (db : Db) (iid : Nat) (f : OrderItem → OrderItem) : Db :=
  { db with orderItems :=
      db.orderItems.map (fun it => if it.id == iid then f it else it) }

/-- `prisma.order.update({ where: { id: oid }, data: ... })`. -/
def updateOrder (db : Db) (oid : Nat) (f : Order → Order) : Db :=
  { db with orders :=
      db.orders.map (fun o => if o.id == oid then f o else o) }

/-- The note-appending idiom of the handlers:
`notes ? \x7b`$\x7bold || ''\x7d<tag>$\x7bnotes\x7d`.trim()\x7d : old`
(`tag` is `"\nRecepción: "` for confirm, `"\n"` for receive,
`"\nCancelado: "` for cancel). -/
def appendNote (old : Option String) (tag : String) (added : Option String) : Option String :=
  match added with
  | none => old
  | some s => some (((old.getD "") ++ tag ++ s).trim)

/-! ## Order numbering (`generateOrderNumber`, orders.js lines 18–41) -/

/-- `` `ORD-$\x7bcurrentYear\x7d-` `` — the year prefix of an order number. -/
def yearPfx (year : Nat) : String := "ORD-" ++ Nat.repr year ++ "-"

/-- `orderNumber.startsWith(yearPrefix)`, modelled on the underlying
character lists. -/
def strStartsWith (s pat : String) : Bool := pat.data.isPrefixOf s.data

/-- The row returned by
`findFirst({ where: { orderNumber: { startsWith } }, orderBy: { orderNumber: 'desc' } })`:
the lexicographically greatest element (SQLite BINARY collation on TEXT =
codepoint order, which is `String.lt` on these ASCII strings). -/
def lexMax? : List String → Option String
  | [] => none
  | s :: rest =>
    match lexMax? rest with
    | none => some s
    | some t => some (if s < t then t else s)

/-- `orderNumber.split('-')`, modelled on the character list. -/
def splitDash : List Char → List (List Char)
  | [] => [[]]
  | c :: cs =>
    if c = '-' then [] :: splitDash cs
    else
      match splitDash cs with
      | [] => [[c]]
      | g :: gs => (c :: g) :: gs

/-- Decimal value of a digit string (the standard left fold). -/
def digitsToNat (cs : List Char) : Nat :=
  cs.foldl (fun n c => n * 10 + (c.toNat - 48)) 0

/-- JS `parseInt`, modelled on all-digit inputs (the only inputs that arise
from well-formed `ORD-<year>-<digits>` numbers; `parseInt`'s NaN behaviour
on malformed input is outside the claims). -/
def parseIntDigits? (cs : List Char) : Option Nat :=
  if !cs.isEmpty && cs.all Char.isDigit then some (digitsToNat cs) else none

/-- `parseInt(lastOrder.orderNumber.split('-')[2])` — the numeric sequence
part of an order number (0 for malformed input). -/
def parseSeq (num : String) : Nat :=
  (parseIntDigits? ((splitDash num.data).getD 2 [])).getD 0

/-- `nextNumber.toString().padStart(3, '0')`. -/
def padStart3 (s : String) : String :=
  if s.length < 3 then String.mk (List.replicate (3 - s.length) '0') ++ s else s

/-- `generateOrderNumber` (orders.js 18–41): take the lexicographically last
existing order number of the current year, parse its numeric suffix, add 1,
and left-pad to three digits. -/
def generateOrderNumber (year : Nat) (orders : List Order) : String :=
  let pfx := yearPfx year
  let nums := (orders.map (fun o => o.orderNumber)).filter (fun s => strStartsWith s pfx)
  match lexMax? nums with
  | none => pfx ++ padStart3 (Nat.repr 1)
  | some last => pfx ++ padStart3 (Nat.repr (parseSeq last + 1))

/-! ## Order creation (`POST /api/orders`, orders.js 147–233) -/

/-- One entry of the request body's `items` array. -/
structure ReqItem where
  inventoryItemId : Nat
  quantityOrdered : Int
  deriving DecidableEq, Repr

/-- The request body of `POST /api/orders`. -/
structure CreateReq where
  type : String
  brand : Option String
  items : List ReqItem
  notes : Option String
  deriving DecidableEq, Repr

/-- An element of `validatedItems`. -/
structure VItem where
  inventoryItemId : Nat
  quantityOrdered : Int
  priceAtTime : Rat
  deriving DecidableEq, Repr

/-- The validation loop of `createOrder` (orders.js 166–192): for each
requested item, look the product up (missing product rejects the whole
request, *before* the quantity test), silently skip items with
`quantity <= 0`, and accumulate `totalItems`, `totalPrice` and
`validatedItems`. Returns `(totalItems, totalPrice, validatedItems)`. -/
def validateItems (inv : List InventoryItem) : List ReqItem → Except ApiError (Int × Rat × List VItem)
  | [] => .ok (0, 0, [])
  | item :: rest =>
    match inv.find? (fun p => p.id == item.inventoryItemId) with
    | none =>
      .error (.badRequest ("Producto con ID " ++ Nat.repr item.inventoryItemId ++ " no encontrado"))
    | some inventoryItem =>
      if item.quantityOrdered ≤ 0 then
        validateItems inv rest
      else
        match validateItems inv rest with
        | .error e => .error e
        | .ok (ti, tp, vs) =>
          .ok (item.quantityOrdered + ti,
               inventoryItem.precio * item.quantityOrdered + tp,
               ⟨inventoryItem.id, item.quantityOrdered, inventoryItem.precio⟩ :: vs)

/-- The nested `items: { create: validatedItems }` of `prisma.order.create`:
each new `OrderItem` row takes the schema defaults
`quantityReceived = 0`, `status = 'pending'`, `receivedAt = NULL`,
`notes = NULL`, and consecutive AUTOINCREMENT ids. -/
def buildItems (startId oid : Nat) : List VItem → List OrderItem
  | [] => []
  | v :: vs =>
    ⟨startId, oid, v.inventoryItemId, v.quantityOrdered, 0, v.priceAtTime, "pending", none, none⟩
      :: buildItems (startId + 1) oid vs

/-- `POST /api/orders` (orders.js 147–233).  `year`/`now` stand for
`new Date()`.  The final guard models the UNIQUE index
`OrderItem_orderId_inventoryItemId_key` (migration 20251015141248): Prisma
raises on the nested create and the transactional `order.create` persists
nothing, surfacing as the handler's catch-all 500. -/
def createOrder (db : Db) (year now userId : Nat) (req : CreateReq) :
    Except ApiError (Db × Order × List OrderItem) :=
  if req.type == "" || req.items.isEmpty then
    .error (.badRequest "Tipo de pedido e items son obligatorios")
  else
    let orderNumber := generateOrderNumber year db.orders
    match validateItems db.inventoryItems req.items with
    | .error e => .error e
    | .ok (totalItems, totalPrice, validatedItems) =>
      if validatedItems.isEmpty then
        .error (.badRequest "El pedido debe tener al menos un item con cantidad mayor a 0")
      else if (validatedItems.map (fun v => v.inventoryItemId)).Nodup then
        let oid := db.nextOrderId
        let newOrder : Order :=
          ⟨oid, orderNumber, req.type, req.brand, "pending", totalItems, totalPrice,
            now, none, req.notes, userId⟩
        let newItems := buildItems db.nextOrderItemId oid validatedItems
        .ok ({ db with
                orders := db.orders ++ [newOrder],
                orderItems := db.orderItems ++ newItems,
                nextOrderId := oid + 1,
                nextOrderItemId := db.nextOrderItemId + newItems.length },
             newOrder, newItems)
      else
        .error (.internal "UNIQUE constraint failed: OrderItem.orderId, OrderItem.inventoryItemId")

/-! ## Full reception (`PUT /api/orders/:id/confirm`, orders.js 235–345) -/

/-- One element of the `stockUpdates` audit list returned by the confirm and
receive handlers. -/
structure StockUpdate where
  itemId : Nat
  itemName : String
  previousStock : Int
  addedQuantity : Int
  newStock : Int
  deriving DecidableEq, Repr

/-- The `include: { items: { include: { inventoryItem: true } } }` snapshot:
each line of the order paired with its product row.  `none` can only arise
from a dangling `inventoryItemId`, which the foreign key
`OrderItem_inventoryItemId_fkey` (ON DELETE RESTRICT) rules out in any real
database state; it is surfaced as the catch-all 500. -/
def withProducts (db : Db) : List OrderItem → Option (List (OrderItem × InventoryItem))
  | [] => some []
  | it :: rest =>
    match getProduct? db it.inventoryItemId, withProducts db rest with
    | some p, some prs => some ((it, p) :: prs)
    | _, _ => none

/-- One iteration of the confirm loop (orders.js 281–320), acting on the
snapshot pair `(orderItem, inventoryItem)` read before the loop:
if `quantityPending > 0`, write the product's stock (to snapshot stock +
pending) and mark the line fully received; otherwise leave both untouched
and report a zero delta. -/
def confirmStep (now : Nat) (db : Db) (pr : OrderItem × InventoryItem) : Db × StockUpdate :=
  let oi := pr.1
  let p := pr.2
  let quantityPending := oi.quantityOrdered - oi.quantityReceived
  if 0 < quantityPending then
    let newStock := p.stock + quantityPending
    let db1 := updateProductStock db oi.inventoryItemId newStock
    let db2 := updateOrderItem db1 oi.id (fun it =>
      { it with quantityReceived := oi.quantityOrdered, status := "completed",
                receivedAt := some now })
    (db2, ⟨oi.inventoryItemId, p.nombre, p.stock, quantityPending, newStock⟩)
  else
    (db, ⟨oi.inventoryItemId, p.nombre, p.stock, 0, p.stock⟩)

/-- The `for (const orderItem of order.items)` loop of the confirm handler. -/
def confirmLoop (now : Nat) (db : Db) : List (OrderItem × InventoryItem) → Db × List StockUpdate
  | [] => (db, [])
  | pr :: rest =>
    let r1 := confirmStep now db pr
    let r2 := confirmLoop now r1.1 rest
    (r2.1, r1.2 :: r2.2)

/-- `PUT /api/orders/:id/confirm` (orders.js 235–345). -/
def confirmOrder (db : Db) (now oid : Nat) (notes : Option String) :
    Except ApiError (Db × Order × List StockUpdate) :=
  match getOrder? db oid with
  | none => .error (.notFound "Pedido no encontrado")
  | some order =>
    if !(order.status == "pending") && !(order.status == "partial") then
      .error (.badRequest "Solo se pueden confirmar pedidos pendientes o parciales")
    else
      match withProducts db (db.orderItems.filter (fun it => it.orderId == oid)) with
      | none => .error (.internal "Error interno del servidor")
      | some pairs =>
        let r := confirmLoop now db pairs
        let f := fun (o : Order) =>
          { o with status := "completed", completedAt := some now,
                   notes := appendNote order.notes "\nRecepción: " notes }
        .ok (updateOrder r.1 oid f, f order, r.2)

/-! ## Partial reception (`PUT /api/orders/:id/items/:itemId/receive`,
orders.js 347–477) -/

/-- The new cumulative total of the receive handler:
`orderItem.quantityReceived + quantityReceived`. -/
def newTotalOf (orderItem : OrderItem) (qty : Int) : Int :=
  orderItem.quantityReceived + qty

/-- The per-line status recomputation of the receive handler
(orders.js 414–420). -/
def recvItemStatus (orderItem : OrderItem) (qty : Int) : String :=
  if newTotalOf orderItem qty == orderItem.quantityOrdered then "completed"
  else if 0 < newTotalOf orderItem qty then "partial"
  else "pending"

/-- The line update written by the receive handler (orders.js 423–434). -/
def recvUpdLine (now : Nat) (qty : Int) (notes : Option String) (orderItem : OrderItem) :
    OrderItem → OrderItem := fun it =>
  { it with quantityReceived := newTotalOf orderItem qty,
            status := recvItemStatus orderItem qty,
            receivedAt := if recvItemStatus orderItem qty == "completed" then some now
                          else orderItem.receivedAt,
            notes := appendNote orderItem.notes "\n" notes }

/-- The whole-order status recomputation of the receive handler
(orders.js 436–449): scan all lines of the order and derive the order
status from the per-line statuses. -/
def recvOrderStatus (lines : List OrderItem) : String :=
  if (lines.filter (fun it => it.status == "completed")).length == lines.length then "completed"
  else if 0 < (lines.filter (fun it => it.status == "completed")).length
      || 0 < (lines.filter (fun it => it.status == "partial")).length then "partial"
  else "pending"

/-- The order update written by the receive handler (orders.js 451–458). -/
def recvUpdOrder (now : Nat) (orderStatus : String) : Order → Order := fun o =>
  { o with status := orderStatus,
           completedAt := if orderStatus == "completed" then some now else none }

/-- The write phase of the receive handler, after all validations passed:
update the product's stock, update the line, recompute and write the order
status, and return `(orderItem, order, stockUpdate)` data. -/
def receiveApply (db : Db) (now oid iid : Nat) (qty : Int) (notes : Option String)
    (orderItem : OrderItem) (inventoryItem : InventoryItem) (order : Order) :
    Db × OrderItem × Order × StockUpdate :=
  let newStock := inventoryItem.stock + qty
  let db1 := updateProductStock db orderItem.inventoryItemId newStock
  let db2 := updateOrderItem db1 iid (recvUpdLine now qty notes orderItem)
  let allOrderItems := db2.orderItems.filter (fun it => it.orderId == oid)
  let orderStatus := recvOrderStatus allOrderItems
  let db3 := updateOrder db2 oid (recvUpdOrder now orderStatus)
  (db3, recvUpdLine now qty notes orderItem orderItem, recvUpdOrder now orderStatus order,
   ⟨orderItem.inventoryItemId, inventoryItem.nombre, inventoryItem.stock, qty, newStock⟩)

/-- `PUT /api/orders/:id/items/:itemId/receive` (orders.js 347–477).
`qty` is the request body's `quantityReceived` (the increment being
reported).  The `internal` branch models the impossible (FK-protected)
dangling references, as in `confirmOrder`. -/
def receiveOrderItem (db : Db) (now oid iid : Nat) (qty : Int) (notes : Option String) :
    Except ApiError (Db × OrderItem × Order × StockUpdate) :=
  if qty ≤ 0 then
    .error (.badRequest "La cantidad recibida debe ser mayor a 0")
  else
    match findOrderItem? db oid iid with
    | none => .error (.notFound "Item del pedido no encontrado")
    | some orderItem =>
      match getProduct? db orderItem.inventoryItemId, getOrder? db orderItem.orderId with
      | some inventoryItem, some order =>
        if order.status == "cancelled" then
          .error (.badRequest "No se puede recepcionar items de pedidos cancelados")
        else
          if orderItem.quantityOrdered < newTotalOf orderItem qty then
            .error (.badRequest ("No se puede recepcionar más de lo pedido. Cantidad pedida: "
              ++ toString orderItem.quantityOrdered ++ ", ya recibido: "
              ++ toString orderItem.quantityReceived))
          else
            .ok (receiveApply db now oid iid qty notes orderItem inventoryItem order)
      | _, _ => .error (.internal "Error interno del servidor")

/-! ## Cancellation (`PUT /api/orders/:id/cancel`, orders.js 479–536) -/

/-- `PUT /api/orders/:id/cancel` (orders.js 479–536). -/
def cancelOrder (db : Db) (oid : Nat) (reason : Option String) :
    Except ApiError (Db × Order) :=
  match getOrder? db oid with
  | none => .error (.notFound "Pedido no encontrado")
  | some order =>
    if !(order.status == "pending") then
      .error (.badRequest "Solo se pueden cancelar pedidos pendientes")
    else
      let f := fun (o : Order) =>
        { o with status := "cancelled",
                 notes := appendNote order.notes "\nCancelado: " reason }
      .ok (updateOrder db oid f, f order)

/-! ## Database well-formedness and reachability -/

/-- Structural invariants of any real database state: primary keys are
unique (`Order.id`, `OrderItem.id`, `InventoryItem.id`), the UNIQUE index
`OrderItem_orderId_inventoryItemId_key` holds, the documented quantity
bounds hold, foreign keys do not dangle
(`OrderItem_inventoryItemId_fkey`, `OrderItem_orderId_fkey`), and the
AUTOINCREMENT counters dominate all existing ids. -/
def WF (db : Db) : Prop :=
  (db.orders.map (fun o => o.id)).Nodup ∧
  (db.orderItems.map (fun it => it.id)).Nodup ∧
  (db.inventoryItems.map (fun p => p.id)).Nodup ∧
  (db.orderItems.map (fun it => (it.orderId, it.inventoryItemId))).Nodup ∧
  (∀ it ∈ db.orderItems, 0 ≤ it.quantityReceived ∧ it.quantityReceived ≤ it.quantityOrdered) ∧
  (∀ it ∈ db.orderItems, ∃ p ∈ db.inventoryItems, p.id = it.inventoryItemId) ∧
  (∀ it ∈ db.orderItems, ∃ o ∈ db.orders, o.id = it.orderId) ∧
  (∀ o ∈ db.orders, o.id < db.nextOrderId) ∧
  (∀ it ∈ db.orderItems, it.id < db.nextOrderItemId)

/-- Equality of handler results is decidable (used to evaluate the model on
concrete inputs). -/
instance {ε α : Type} [DecidableEq ε] [DecidableEq α] : DecidableEq (Except ε α) := fun a b =>
  match a, b with
  | .error e1, .error e2 =>
    if h : e1 = e2 then isTrue (by rw [h]) else isFalse (fun he => h (by injection he))
  | .ok x, .ok y =>
    if h : x = y then isTrue (by rw [h]) else isFalse (fun he => h (by injection he))
  | .error _, .ok _ => isFalse Except.noConfusion
  | .ok _, .error _ => isFalse Except.noConfusion

/-- `WF` is decidable on concrete databases. -/
instance decWF (db : Db) : Decidable (WF db) := by
  unfold WF
  infer_instance

/-- States reachable through the ledger operations, starting from any state
with no orders (the inventory CRUD layer owns `InventoryItem` and its
primary key). -/
inductive Reachable : Db → Prop where
  | init (db : Db) : db.orders = [] → db.orderItems = [] →
      (db.inventoryItems.map (fun p => p.id)).Nodup → Reachable db
  | create (db : Db) (year now userId : Nat) (req : CreateReq)
      (r : Db × Order × List OrderItem) :
      Reachable db → createOrder db year now userId req = .ok r → Reachable r.1
  | confirm (db : Db) (now oid : Nat) (notes : Option String)
      (r : Db × Order × List StockUpdate) :
      Reachable db → confirmOrder db now oid notes = .ok r → Reachable r.1
  | receive (db : Db) (now oid iid : Nat) (qty : Int) (notes : Option String)
      (r : Db × OrderItem × Order × StockUpdate) :
      Reachable db → receiveOrderItem db now oid iid qty notes = .ok r → Reachable r.1
  | cancel (db : Db) (oid : Nat) (reason : Option String) (r : Db × Order) :
      Reachable db → cancelOrder db oid reason = .ok r → Reachable r.1

/-! ## Spec-side status invariants (for refinement comparison) -/

/-- Modelled from the spec (§3, invariants): line status is `completed` iff
`quantityReceived == quantityOrdered`; `partial` iff
`0 < quantityReceived < quantityOrdered`; `pending` iff
`quantityReceived == 0`.  Stated as the three characteristic equivalences,
to be compared with the status the handlers actually store. -/
def LineStatusMatchesQuantities (it : OrderItem) : Prop :=
  (it.status = "completed" ↔ it.quantityReceived = it.quantityOrdered) ∧
  (it.status = "partial" ↔ 0 < it.quantityReceived ∧ it.quantityReceived < it.quantityOrdered) ∧
  (it.status = "pending" ↔ it.quantityReceived = 0)

/-- Modelled from the spec (§3, invariants): order status is `completed`
iff all lines are `completed`; `partial` iff at least one line is `partial`
or `completed` but not all are `completed`; otherwise `pending`. -/
def OrderStatusMatchesLines (status : String) (lines : List OrderItem) : Prop :=
  (status = "completed" ↔ ∀ it ∈ lines, it.status = "completed") ∧
  (status = "partial" ↔
    ((∃ it ∈ lines, it.status = "partial" ∨ it.status = "completed") ∧
      ¬ ∀ it ∈ lines, it.status = "completed")) ∧
  (status = "pending" ↔ ∀ it ∈ lines, it.status ≠ "partial" ∧ it.status ≠ "completed")

/-! ## Concrete demonstration fixtures (used by the witnesses) -/

/-- A small inventory: two products. -/
def demoDb0 : Db :=
  ⟨[⟨1, "tabaco", 5, 10⟩, ⟨2, "mechero", 3/2, 4⟩], [], [], 1, 1⟩

/-- A creation request for 5 of product 1 and 3 of product 2. -/
def demoReq : CreateReq := ⟨"general", none, [⟨1, 5⟩, ⟨2, 3⟩], none⟩

/-- Placeholder rows for `Option.getD` below (never actually used: the
operations on the demo database succeed). -/
def noOrder : Order := ⟨0, "", "", none, "", 0, 0, 0, none, none, 0⟩

/-- Placeholder line. -/
def noItem : OrderItem := ⟨0, 0, 0, 0, 0, 0, "", none, none⟩

/-- Placeholder stock delta. -/
def noSu : StockUpdate := ⟨0, "", 0, 0, 0⟩

/-- The result of `createOrder demoDb0 2025 100 7 demoReq` (the order
`ORD-2025-001` with two pending lines). -/
def demoCreated : Db × Order × List OrderItem :=
  ((createOrder demoDb0 2025 100 7 demoReq).toOption).getD (demoDb0, noOrder, [])

/-- The database after that creation. -/
def demoDb1 : Db := demoCreated.1

/-- The result of receiving 2 of the 5 ordered units of product 1. -/
def demoReceived : Db × OrderItem × Order × StockUpdate :=
  ((receiveOrderItem demoDb1 200 1 1 2 none).toOption).getD (demoDb1, noItem, noOrder, noSu)

/-- The result of cancelling the demo order while still pending. -/
def demoCancelled : Db × Order :=
  ((cancelOrder demoDb1 1 (some "mal")).toOption).getD (demoDb1, noOrder)

/-- A creation request whose second line references the nonexistent
product 3. -/
def demoBadReq : CreateReq := ⟨"general", none, [⟨1, 5⟩, ⟨3, 2⟩], none⟩

/-- A creation request whose second line references the nonexistent
product 3 with quantity 0 (it would otherwise be silently dropped). -/
def demoBad2Req : CreateReq := ⟨"general", none, [⟨1, 5⟩, ⟨3, 0⟩], none⟩

/-- A creation request listing product 1 in two positive-quantity lines. -/
def demoDupReq : CreateReq := ⟨"general", none, [⟨1, 2⟩, ⟨1, 3⟩], none⟩

/-- Orders of year 2025 whose sequence numbers are 999 and 1000 (the
counterexample state for claim C8). -/
def cexOrders : List Order :=
  [⟨1, "ORD-2025-999", "general", none, "completed", 0, 0, 0, none, none, 1⟩,
   ⟨2, "ORD-2025-1000", "general", none, "pending", 0, 0, 0, none, none, 1⟩]

/-- Orders of year 2025 whose numbers all carry three-digit zero-padded
sequence numbers (1 and 7). -/
def cexGood : List Order :=
  [⟨1, "ORD-2025-001", "general", none, "completed", 0, 0, 0, none, none, 1⟩,
   ⟨2, "ORD-2025-007", "general", none, "pending", 0, 0, 0, none, none, 1⟩]

/-! # Lemmas

## Generic list helpers -/

theorem map_key_map {α β : Type} (g : α → α) (k : α → β) (h : ∀ a, k (g a) = k a)
    (l : List α) : (l.map g).map k = l.map k := by
  induction l with
  | nil => rfl
  | cons a as ih => simp [h, ih]

theorem exists_key_map {α β : Type} (g : α → α) (k : α → β) (h : ∀ a, k (g a) = k a)
    (l : List α) (x : β) (hx : ∃ a ∈ l, k a = x) : ∃ a ∈ l.map g, k a = x := by
  obtain ⟨a, ha, hk⟩ := hx
  exact ⟨g a, List.mem_map_of_mem g ha, by rw [h]; exact hk⟩

theorem find?_eq_of_mem_nodup {α : Type} (k : α → Nat) (l : List α)
    (hn : (l.map k).Nodup) (a : α) (ha : a ∈ l) :
    l.find? (fun x => k x == k a) = some a := by
  induction l with
  | nil => cases ha
  | cons b bs ih =>
    rcases List.mem_cons.mp ha with rfl | ha'
    · exact List.find?_cons_of_pos _ (by simp)
    · have hn' := hn
      simp only [List.map_cons, List.nodup_cons] at hn'
      have hfalse : (k b == k a) = false := by
        simp only [beq_eq_false_iff_ne, ne_eq]
        intro heq
        exact hn'.1 (heq ▸ List.mem_map_of_mem k ha')
      simp only [List.find?, hfalse]
      exact ih hn'.2 ha'

/-! ## Characterization of the three row-update operations -/

theorem updateOrderItem_orders (db : Db) (i : Nat) (f : OrderItem → OrderItem) :
    (updateOrderItem db i f).orders = db.orders := rfl

theorem updateOrderItem_inventoryItems (db : Db) (i : Nat) (f : OrderItem → OrderItem) :
    (updateOrderItem db i f).inventoryItems = db.inventoryItems := rfl

theorem updateProductStock_orders (db : Db) (pid : Nat) (v : Int) :
    (updateProductStock db pid v).orders = db.orders := rfl

theorem updateProductStock_orderItems (db : Db) (pid : Nat) (v : Int) :
    (updateProductStock db pid v).orderItems = db.orderItems := rfl

theorem updateOrder_orderItems (db : Db) (oid : Nat) (f : Order → Order) :
    (updateOrder db oid f).orderItems = db.orderItems := rfl

theorem updateOrder_inventoryItems (db : Db) (oid : Nat) (f : Order → Order) :
    (updateOrder db oid f).inventoryItems = db.inventoryItems := rfl

theorem getItem?_updateOrderItem (db : Db) (i j : Nat) (f : OrderItem → OrderItem)
    (hf : ∀ it, (f it).id = it.id) :
    getItem? (updateOrderItem db i f) j
      = (getItem? db j).map (fun it => if it.id == i then f it else it) := by
  show List.find? _ (db.orderItems.map _) = _
  rw [List.find?_map]
  have hpg : ((fun it : OrderItem => it.id == j) ∘ (fun it => if it.id == i then f it else it))
      = (fun it : OrderItem => it.id == j) := by
    funext it
    by_cases hit : (it.id == i) = true <;> simp [Function.comp, hit, hf]
  rw [hpg]
  rfl

theorem getItem?_updateOrderItem_ne (db : Db) (i j : Nat) (f : OrderItem → OrderItem)
    (hf : ∀ it, (f it).id = it.id) (hij : j ≠ i) :
    getItem? (updateOrderItem db i f) j = getItem? db j := by
  rw [getItem?_updateOrderItem db i j f hf]
  cases h : getItem? db j with
  | none => rfl
  | some a =>
    have ha : a.id = j := by simpa using List.find?_some h
    simp [ha, hij]

theorem getItem?_updateOrderItem_eq (db : Db) (i : Nat) (f : OrderItem → OrderItem)
    (hf : ∀ it, (f it).id = it.id) :
    getItem? (updateOrderItem db i f) i = (getItem? db i).map f := by
  rw [getItem?_updateOrderItem db i i f hf]
  cases h : getItem? db i with
  | none => rfl
  | some a =>
    have ha : a.id = i := by simpa using List.find?_some h
    simp [ha]

theorem getProduct?_updateProductStock (db : Db) (pid qid : Nat) (v : Int) :
    getProduct? (updateProductStock db pid v) qid
      = (getProduct? db qid).map (fun p => if p.id == pid then { p with stock := v } else p) := by
  show List.find? _ (db.inventoryItems.map _) = _
  rw [List.find?_map]
  have hpg : ((fun p : InventoryItem => p.id == qid)
        ∘ (fun p => if p.id == pid then { p with stock := v } else p))
      = (fun p : InventoryItem => p.id == qid) := by
    funext p
    by_cases hp : (p.id == pid) = true <;> simp [Function.comp, hp]
  rw [hpg]
  rfl

theorem getProduct?_updateProductStock_ne (db : Db) (pid qid : Nat) (v : Int) (h : qid ≠ pid) :
    getProduct? (updateProductStock db pid v) qid = getProduct? db qid := by
  rw [getProduct?_updateProductStock]
  cases hq : getProduct? db qid with
  | none => rfl
  | some a =>
    have ha : a.id = qid := by simpa using List.find?_some hq
    simp [ha, h]

theorem getProduct?_updateProductStock_eq (db : Db) (pid : Nat) (v : Int) :
    getProduct? (updateProductStock db pid v) pid
      = (getProduct? db pid).map (fun p => { p with stock := v }) := by
  rw [getProduct?_updateProductStock]
  cases hq : getProduct? db pid with
  | none => rfl
  | some a =>
    have ha : a.id = pid := by simpa using List.find?_some hq
    simp [ha]

theorem getOrder?_updateOrder (db : Db) (oid qid : Nat) (f : Order → Order)
    (hf : ∀ o, (f o).id = o.id) :
    getOrder? (updateOrder db oid f) qid
      = (getOrder? db qid).map (fun o => if o.id == oid then f o else o) := by
  show List.find? _ (db.orders.map _) = _
  rw [List.find?_map]
  have hpg : ((fun o : Order => o.id == qid) ∘ (fun o => if o.id == oid then f o else o))
      = (fun o : Order => o.id == qid) := by
    funext o
    by_cases ho : (o.id == oid) = true <;> simp [Function.comp, ho, hf]
  rw [hpg]
  rfl

theorem getOrder?_updateOrder_eq (db : Db) (oid : Nat) (f : Order → Order)
    (hf : ∀ o, (f o).id = o.id) :
    getOrder? (updateOrder db oid f) oid = (getOrder? db oid).map f := by
  rw [getOrder?_updateOrder db oid oid f hf]
  cases h : getOrder? db oid with
  | none => rfl
  | some a =>
    have ha : a.id = oid := by simpa using List.find?_some h
    simp [ha]

theorem getItem?_updateProductStock (db : Db) (pid : Nat) (v : Int) (j : Nat) :
    getItem? (updateProductStock db pid v) j = getItem? db j := rfl

theorem getProduct?_updateOrderItem (db : Db) (i : Nat) (f : OrderItem → OrderItem) (qid : Nat) :
    getProduct? (updateOrderItem db i f) qid = getProduct? db qid := rfl

theorem getItem?_updateOrder (db : Db) (oid : Nat) (f : Order → Order) (j : Nat) :
    getItem? (updateOrder db oid f) j = getItem? db j := rfl

theorem getProduct?_updateOrder (db : Db) (oid : Nat) (f : Order → Order) (qid : Nat) :
    getProduct? (updateOrder db oid f) qid = getProduct? db qid := rfl

theorem getOrder?_updateOrderItem (db : Db) (i : Nat) (f : OrderItem → OrderItem) (qid : Nat) :
    getOrder? (updateOrderItem db i f) qid = getOrder? db qid := rfl

theorem getOrder?_updateProductStock (db : Db) (pid : Nat) (v : Int) (qid : Nat) :
    getOrder? (updateProductStock db pid v) qid = getOrder? db qid := rfl

theorem orderItems_map_key_updateOrderItem {β : Type} (db : Db) (i : Nat)
    (f : OrderItem → OrderItem) (k : OrderItem → β) (hk : ∀ it, k (f it) = k it) :
    ((updateOrderItem db i f).orderItems).map k = db.orderItems.map k :=
  map_key_map _ k (fun a => by by_cases h : (a.id == i) = true <;> simp [h, hk]) _

theorem inventoryItems_map_key_updateProductStock {β : Type} (db : Db) (pid : Nat) (v : Int)
    (k : InventoryItem → β) (hk : ∀ p, k { p with stock := v } = k p) :
    ((updateProductStock db pid v).inventoryItems).map k = db.inventoryItems.map k :=
  map_key_map _ k (fun a => by by_cases h : (a.id == pid) = true <;> simp [h, hk]) _

theorem orders_map_key_updateOrder {β : Type} (db : Db) (oid : Nat)
    (f : Order → Order) (k : Order → β) (hk : ∀ o, k (f o) = k o) :
    ((updateOrder db oid f).orders).map k = db.orders.map k :=
  map_key_map _ k (fun a => by by_cases h : (a.id == oid) = true <;> simp [h, hk]) _

theorem eq_of_key_eq_of_nodup {α β : Type} (k : α → β) (l : List α)
    (hn : (l.map k).Nodup) {a b : α} (ha : a ∈ l) (hb : b ∈ l) (hk : k a = k b) : a = b := by
  induction l with
  | nil => cases ha
  | cons c cs ih =>
    simp only [List.map_cons, List.nodup_cons] at hn
    rcases List.mem_cons.mp ha with rfl | ha' <;> rcases List.mem_cons.mp hb with rfl | hb'
    · rfl
    · exact absurd (hk ▸ List.mem_map_of_mem k hb') hn.1
    · exact absurd (hk ▸ List.mem_map_of_mem k ha') hn.1
    · exact ih hn.2 ha' hb'

/-! ## The confirm loop -/

theorem confirmStep_orders (now : Nat) (db : Db) (pr : OrderItem × InventoryItem) :
    (confirmStep now db pr).1.orders = db.orders := by
  by_cases h : 0 < pr.1.quantityOrdered - pr.1.quantityReceived <;>
    simp [confirmStep, h, updateOrderItem_orders, updateProductStock_orders]

theorem confirmStep_item_ne (now : Nat) (db : Db) (pr : OrderItem × InventoryItem) (j : Nat)
    (hj : pr.1.id ≠ j ∨ pr.1.quantityOrdered - pr.1.quantityReceived ≤ 0) :
    getItem? (confirmStep now db pr).1 j = getItem? db j := by
  by_cases h : 0 < pr.1.quantityOrdered - pr.1.quantityReceived
  · have hji : j ≠ pr.1.id := by
      rcases hj with h1 | h2
      · exact fun he => h1 he.symm
      · omega
    simp only [confirmStep, if_pos h]
    rw [getItem?_updateOrderItem_ne]
    · exact getItem?_updateProductStock db pr.1.inventoryItemId _ j
    · exact fun it => rfl
    · exact hji
  · simp [confirmStep, h]

theorem confirmStep_item_eq (now : Nat) (db : Db) (pr : OrderItem × InventoryItem)
    (h : 0 < pr.1.quantityOrdered - pr.1.quantityReceived) :
    getItem? (confirmStep now db pr).1 pr.1.id
      = (getItem? db pr.1.id).map (fun it =>
          { it with quantityReceived := pr.1.quantityOrdered, status := "completed",
                    receivedAt := some now }) := by
  simp only [confirmStep, if_pos h]
  rw [getItem?_updateOrderItem_eq]
  · rw [getItem?_updateProductStock]
  · exact fun it => rfl

theorem confirmStep_product_ne (now : Nat) (db : Db) (pr : OrderItem × InventoryItem) (qid : Nat)
    (hq : pr.1.inventoryItemId ≠ qid ∨ pr.1.quantityOrdered - pr.1.quantityReceived ≤ 0) :
    getProduct? (confirmStep now db pr).1 qid = getProduct? db qid := by
  by_cases h : 0 < pr.1.quantityOrdered - pr.1.quantityReceived
  · have hqi : qid ≠ pr.1.inventoryItemId := by
      rcases hq with h1 | h2
      · exact fun he => h1 he.symm
      · omega
    simp only [confirmStep, if_pos h]
    rw [getProduct?_updateOrderItem, getProduct?_updateProductStock_ne _ _ _ _ hqi]
  · simp [confirmStep, h]

theorem confirmStep_product_eq (now : Nat) (db : Db) (pr : OrderItem × InventoryItem)
    (h : 0 < pr.1.quantityOrdered - pr.1.quantityReceived) :
    getProduct? (confirmStep now db pr).1 pr.1.inventoryItemId
      = (getProduct? db pr.1.inventoryItemId).map (fun p =>
          { p with stock := pr.2.stock + (pr.1.quantityOrdered - pr.1.quantityReceived) }) := by
  simp only [confirmStep, if_pos h]
  rw [getProduct?_updateOrderItem, getProduct?_updateProductStock_eq]

theorem confirmStep_update_pos (now : Nat) (db : Db) (pr : OrderItem × InventoryItem)
    (h : 0 < pr.1.quantityOrdered - pr.1.quantityReceived) :
    (confirmStep now db pr).2
      = ⟨pr.1.inventoryItemId, pr.2.nombre, pr.2.stock,
         pr.1.quantityOrdered - pr.1.quantityReceived,
         pr.2.stock + (pr.1.quantityOrdered - pr.1.quantityReceived)⟩ := by
  simp [confirmStep, h]

theorem confirmStep_update_zero (now : Nat) (db : Db) (pr : OrderItem × InventoryItem)
    (h : ¬ 0 < pr.1.quantityOrdered - pr.1.quantityReceived) :
    (confirmStep now db pr).2 = ⟨pr.1.inventoryItemId, pr.2.nombre, pr.2.stock, 0, pr.2.stock⟩ := by
  simp [confirmStep, h]

theorem confirmLoop_orders (now : Nat) :
    ∀ (pairs : List (OrderItem × InventoryItem)) (db : Db),
      (confirmLoop now db pairs).1.orders = db.orders := by
  intro pairs
  induction pairs with
  | nil => intro db; rfl
  | cons pr rest ih =>
    intro db
    show (confirmLoop now (confirmStep now db pr).1 rest).1.orders = db.orders
    rw [ih, confirmStep_orders]

/-- Full characterization of the confirm loop on a list of snapshot pairs
with pairwise-distinct line ids and pairwise-distinct product ids (both
guaranteed for the lines of a single order by the primary key and the
UNIQUE index): rows not named by a positive-pending pair are untouched;
each positive-pending pair's line is marked fully received, its product's
stock is set to snapshot stock + pending, and its delta is reported; each
zero-pending pair is reported with a zero delta. -/
theorem confirmLoop_spec (now : Nat) :
    ∀ (pairs : List (OrderItem × InventoryItem)) (db : Db),
    (pairs.map (fun pr => pr.1.id)).Nodup →
    (pairs.map (fun pr => pr.1.inventoryItemId)).Nodup →
    (∀ j : Nat,
       (∀ pr ∈ pairs, pr.1.id ≠ j ∨ pr.1.quantityOrdered - pr.1.quantityReceived ≤ 0) →
       getItem? (confirmLoop now db pairs).1 j = getItem? db j) ∧
    (∀ qid : Nat,
       (∀ pr ∈ pairs, pr.1.inventoryItemId ≠ qid ∨ pr.1.quantityOrdered - pr.1.quantityReceived ≤ 0) →
       getProduct? (confirmLoop now db pairs).1 qid = getProduct? db qid) ∧
    (∀ pr ∈ pairs, 0 < pr.1.quantityOrdered - pr.1.quantityReceived →
       getItem? (confirmLoop now db pairs).1 pr.1.id
         = (getItem? db pr.1.id).map (fun it =>
             { it with quantityReceived := pr.1.quantityOrdered, status := "completed",
                       receivedAt := some now }) ∧
       getProduct? (confirmLoop now db pairs).1 pr.1.inventoryItemId
         = (getProduct? db pr.1.inventoryItemId).map (fun p =>
             { p with stock := pr.2.stock + (pr.1.quantityOrdered - pr.1.quantityReceived) }) ∧
       (⟨pr.1.inventoryItemId, pr.2.nombre, pr.2.stock,
          pr.1.quantityOrdered - pr.1.quantityReceived,
          pr.2.stock + (pr.1.quantityOrdered - pr.1.quantityReceived)⟩ : StockUpdate)
         ∈ (confirmLoop now db pairs).2) ∧
    (∀ pr ∈ pairs, pr.1.quantityOrdered - pr.1.quantityReceived ≤ 0 →
       (⟨pr.1.inventoryItemId, pr.2.nombre, pr.2.stock, 0, pr.2.stock⟩ : StockUpdate)
         ∈ (confirmLoop now db pairs).2) := by
  intro pairs
  induction pairs with
  | nil =>
    intro db _ _
    exact ⟨fun j _ => rfl, fun qid _ => rfl, fun pr hpr => absurd hpr (List.not_mem_nil pr),
           fun pr hpr => absurd hpr (List.not_mem_nil pr)⟩
  | cons pr0 rest ih =>
    intro db hnid hninv
    simp only [List.map_cons, List.nodup_cons] at hnid hninv
    obtain ⟨ih1, ih2, ih3, ih4⟩ := ih (confirmStep now db pr0).1 hnid.2 hninv.2
    have hloop : confirmLoop now db (pr0 :: rest)
        = ((confirmLoop now (confirmStep now db pr0).1 rest).1,
           (confirmStep now db pr0).2 :: (confirmLoop now (confirmStep now db pr0).1 rest).2) := rfl
    refine ⟨?_, ?_, ?_, ?_⟩
    · intro j hj
      rw [hloop]
      have h0 := hj pr0 (List.mem_cons_self pr0 rest)
      rw [ih1 j (fun pr hpr => hj pr (List.mem_cons_of_mem pr0 hpr))]
      exact confirmStep_item_ne now db pr0 j h0
    · intro qid hq
      rw [hloop]
      have h0 := hq pr0 (List.mem_cons_self pr0 rest)
      rw [ih2 qid (fun pr hpr => hq pr (List.mem_cons_of_mem pr0 hpr))]
      exact confirmStep_product_ne now db pr0 qid h0
    · intro pr hpr hpos
      rcases List.mem_cons.mp hpr with rfl | hpr'
      · refine ⟨?_, ?_, ?_⟩
        · rw [hloop]
          have hrest : ∀ q ∈ rest, q.1.id ≠ pr.1.id ∨ q.1.quantityOrdered - q.1.quantityReceived ≤ 0 :=
            fun q hq => Or.inl (fun he => hnid.1 (he ▸ List.mem_map_of_mem (fun x => x.1.id) hq))
          rw [ih1 pr.1.id hrest]
          exact confirmStep_item_eq now db pr hpos
        · rw [hloop]
          have hrest : ∀ q ∈ rest,
              q.1.inventoryItemId ≠ pr.1.inventoryItemId ∨ q.1.quantityOrdered - q.1.quantityReceived ≤ 0 :=
            fun q hq => Or.inl (fun he => hninv.1 (he ▸ List.mem_map_of_mem (fun x => x.1.inventoryItemId) hq))
          rw [ih2 pr.1.inventoryItemId hrest]
          exact confirmStep_product_eq now db pr hpos
        · rw [hloop]
          rw [confirmStep_update_pos now db pr hpos]
          exact List.mem_cons_self _ _
      · obtain ⟨hit, hprod, hmem⟩ := ih3 pr hpr' hpos
        have hneid : pr0.1.id ≠ pr.1.id :=
          fun he => hnid.1 (he ▸ List.mem_map_of_mem (fun x => x.1.id) hpr')
        have hneinv : pr0.1.inventoryItemId ≠ pr.1.inventoryItemId :=
          fun he => hninv.1 (he ▸ List.mem_map_of_mem (fun x => x.1.inventoryItemId) hpr')
        refine ⟨?_, ?_, ?_⟩
        · rw [hloop, hit, confirmStep_item_ne now db pr0 pr.1.id (Or.inl hneid)]
        · rw [hloop, hprod, confirmStep_product_ne now db pr0 pr.1.inventoryItemId (Or.inl hneinv)]
        · rw [hloop]
          exact List.mem_cons_of_mem _ hmem
    · intro pr hpr hz
      rcases List.mem_cons.mp hpr with rfl | hpr'
      · rw [hloop, confirmStep_update_zero now db pr (by omega)]
        exact List.mem_cons_self _ _
      · rw [hloop]
        exact List.mem_cons_of_mem _ (ih4 pr hpr' hz)

/-! ## The snapshot read of the confirm handler -/

theorem withProducts_fst (db : Db) :
    ∀ {items : List OrderItem} {prs : List (OrderItem × InventoryItem)},
    withProducts db items = some prs →
    prs.map Prod.fst = items ∧ ∀ pr ∈ prs, getProduct? db pr.1.inventoryItemId = some pr.2 := by
  intro items
  induction items with
  | nil =>
    intro prs h
    simp only [withProducts] at h
    cases h
    exact ⟨rfl, fun pr hpr => absurd hpr (List.not_mem_nil pr)⟩
  | cons it rest ih =>
    intro prs h
    simp only [withProducts] at h
    cases hp : getProduct? db it.inventoryItemId with
    | none => rw [hp] at h; cases h
    | some p =>
      rw [hp] at h
      cases hw : withProducts db rest with
      | none => rw [hw] at h; cases h
      | some prs' =>
        rw [hw] at h
        cases h
        obtain ⟨ih1, ih2⟩ := ih hw
        constructor
        · simp [ih1]
        · intro pr hpr
          rcases List.mem_cons.mp hpr with rfl | hpr'
          · exact hp
          · exact ih2 pr hpr'

theorem withProducts_isSome (db : Db) :
    ∀ {items : List OrderItem},
    (∀ it ∈ items, ∃ p ∈ db.inventoryItems, p.id = it.inventoryItemId) →
    ∃ prs, withProducts db items = some prs := by
  intro items
  induction items with
  | nil => intro _; exact ⟨[], rfl⟩
  | cons it rest ih =>
    intro h
    obtain ⟨p, hp, hpid⟩ := h it (List.mem_cons_self it rest)
    have hsome : ∃ q, getProduct? db it.inventoryItemId = some q := by
      have : (db.inventoryItems.find? (fun x => x.id == it.inventoryItemId)).isSome := by
        rw [List.find?_isSome]
        exact ⟨p, hp, by simp [hpid]⟩
      exact Option.isSome_iff_exists.mp this
    obtain ⟨q, hq⟩ := hsome
    obtain ⟨prs, hprs⟩ := ih (fun x hx => h x (List.mem_cons_of_mem it hx))
    exact ⟨(it, q) :: prs, by simp only [withProducts, hq, hprs]⟩

theorem filtered_line_ids_nodup (db : Db)
    (hn : (db.orderItems.map (fun it => it.id)).Nodup) (oid : Nat) :
    ((db.orderItems.filter (fun it => it.orderId == oid)).map (fun it => it.id)).Nodup :=
  ((List.filter_sublist db.orderItems).map (fun it => it.id)).nodup hn

theorem nodup_inv_of_nodup_pairs :
    ∀ (l : List OrderItem) (c : Nat), (∀ it ∈ l, it.orderId = c) →
    (l.map (fun it => (it.orderId, it.inventoryItemId))).Nodup →
    (l.map (fun it => it.inventoryItemId)).Nodup := by
  intro l
  induction l with
  | nil => intro c _ _; exact List.nodup_nil
  | cons it rest ih =>
    intro c hall hn
    simp only [List.map_cons, List.nodup_cons] at hn ⊢
    refine ⟨?_, ih c (fun x hx => hall x (List.mem_cons_of_mem it hx)) hn.2⟩
    intro hmem
    obtain ⟨q, hq, hqiv⟩ := List.mem_map.mp hmem
    apply hn.1
    have hqo : q.orderId = it.orderId := by
      rw [hall q (List.mem_cons_of_mem it hq), hall it (List.mem_cons_self it rest)]
    exact List.mem_map.mpr ⟨q, hq, by rw [hqo, hqiv]⟩

theorem filtered_inv_ids_nodup (db : Db)
    (hn : (db.orderItems.map (fun it => (it.orderId, it.inventoryItemId))).Nodup) (oid : Nat) :
    ((db.orderItems.filter (fun it => it.orderId == oid)).map
      (fun it => it.inventoryItemId)).Nodup := by
  apply nodup_inv_of_nodup_pairs _ oid
  · intro it hit
    have := (List.mem_filter.mp hit).2
    simpa using this
  · exact ((List.filter_sublist db.orderItems).map
      (fun it => (it.orderId, it.inventoryItemId))).nodup hn

/-! ## Full reception: characterization of `confirmOrder` -/

theorem getOrder?_eq_of_orders_eq (db1 db2 : Db) (h : db1.orders = db2.orders) (oid : Nat) :
    getOrder? db1 oid = getOrder? db2 oid := by
  unfold getOrder?
  rw [h]

theorem confirmOrder_ok_spec (db : Db) (now oid : Nat) (notes : Option String)
    (db' : Db) (o' : Order) (us : List StockUpdate)
    (hwf : WF db) (h : confirmOrder db now oid notes = .ok (db', o', us)) :
    ∃ order, getOrder? db oid = some order ∧
      (order.status = "pending" ∨ order.status = "partial") ∧
      o' = { order with
             status := "completed", completedAt := some now,
             notes := appendNote order.notes "\nRecepción: " notes } ∧
      getOrder? db' oid = some o' ∧
      (∀ it ∈ db.orderItems, it.orderId = oid →
        (0 < it.quantityOrdered - it.quantityReceived →
          getItem? db' it.id = some { it with
            quantityReceived := it.quantityOrdered,
            status := "completed", receivedAt := some now } ∧
          ∃ p, getProduct? db it.inventoryItemId = some p ∧
            getProduct? db' it.inventoryItemId
              = some { p with stock := p.stock + (it.quantityOrdered - it.quantityReceived) } ∧
            (⟨it.inventoryItemId, p.nombre, p.stock, it.quantityOrdered - it.quantityReceived,
               p.stock + (it.quantityOrdered - it.quantityReceived)⟩ : StockUpdate) ∈ us) ∧
        (it.quantityOrdered - it.quantityReceived ≤ 0 →
          getItem? db' it.id = some it ∧
          getProduct? db' it.inventoryItemId = getProduct? db it.inventoryItemId ∧
          ∃ p, getProduct? db it.inventoryItemId = some p ∧
            (⟨it.inventoryItemId, p.nombre, p.stock, 0, p.stock⟩ : StockUpdate) ∈ us)) ∧
      (∀ it ∈ db.orderItems, it.orderId ≠ oid → getItem? db' it.id = getItem? db it.id) := by
  obtain ⟨hnO, hnI, hnP, hnPair, hbounds, hfkP, hfkO, hltO, hltI⟩ := hwf
  unfold confirmOrder at h
  cases hord : getOrder? db oid with
  | none => simp only [hord] at h; exact Except.noConfusion h
  | some order =>
  simp only [hord] at h
  by_cases hst : (!(order.status == "pending") && !(order.status == "partial")) = true
  · rw [if_pos hst] at h; exact Except.noConfusion h
  · rw [if_neg hst] at h
    cases hw : withProducts db (db.orderItems.filter (fun it => it.orderId == oid)) with
    | none => simp only [hw] at h; exact Except.noConfusion h
    | some pairs =>
    simp only [hw] at h
    simp only [Except.ok.injEq, Prod.mk.injEq] at h
    obtain ⟨hdb', ho', hus⟩ := h
    obtain ⟨hfst, hsnd⟩ := withProducts_fst db hw
    have hstatus : order.status = "pending" ∨ order.status = "partial" := by
      by_cases h1 : order.status = "pending"
      · exact Or.inl h1
      · by_cases h2 : order.status = "partial"
        · exact Or.inr h2
        · exact absurd (by simp [h1, h2]) hst
    have hnid : (pairs.map (fun pr => pr.1.id)).Nodup := by
      have : pairs.map (fun pr => pr.1.id)
          = (pairs.map Prod.fst).map (fun it => it.id) := by
        simp [List.map_map, Function.comp]
      rw [this, hfst]
      exact filtered_line_ids_nodup db hnI oid
    have hninv : (pairs.map (fun pr => pr.1.inventoryItemId)).Nodup := by
      have : pairs.map (fun pr => pr.1.inventoryItemId)
          = (pairs.map Prod.fst).map (fun it => it.inventoryItemId) := by
        simp [List.map_map, Function.comp]
      rw [this, hfst]
      exact filtered_inv_ids_nodup db hnPair oid
    obtain ⟨LB, LC, LD, LE⟩ := confirmLoop_spec now pairs db hnid hninv
    have hdbitems : ∀ j : Nat, getItem? db' j = getItem? (confirmLoop now db pairs).1 j := by
      intro j
      rw [← hdb']
      rfl
    have hdbprods : ∀ q : Nat, getProduct? db' q = getProduct? (confirmLoop now db pairs).1 q := by
      intro q
      rw [← hdb']
      rfl
    refine ⟨order, rfl, hstatus, ho'.symm, ?_, ?_, ?_⟩
    · rw [← hdb']
      rw [getOrder?_updateOrder_eq]
      · rw [getOrder?_eq_of_orders_eq _ db (confirmLoop_orders now pairs db) oid, hord]
        simpa using ho'
      · exact fun o => rfl
    · intro it hit hoid
      have hitf : it ∈ db.orderItems.filter (fun x => x.orderId == oid) :=
        List.mem_filter.mpr ⟨hit, by simp [hoid]⟩
      have hitp : it ∈ pairs.map Prod.fst := by rw [hfst]; exact hitf
      obtain ⟨pr, hpr, hprfst⟩ := List.mem_map.mp hitp
      have hgetit : getItem? db it.id = some it := by
        have h1 := find?_eq_of_mem_nodup (fun x : OrderItem => x.id) db.orderItems hnI it hit
        exact h1
      constructor
      · intro hpos
        have hpos' : 0 < pr.1.quantityOrdered - pr.1.quantityReceived := by rw [hprfst]; exact hpos
        obtain ⟨D1, D2, D3⟩ := LD pr hpr hpos'
        have hp2 : getProduct? db it.inventoryItemId = some pr.2 := by
          rw [← hprfst]
          exact hsnd pr hpr
        refine ⟨?_, pr.2, hp2, ?_, ?_⟩
        · rw [hdbitems it.id, ← hprfst, D1, hprfst, hgetit]
          rfl
        · rw [hdbprods it.inventoryItemId, ← hprfst, D2, hprfst, hp2]
          simp [hprfst]
        · rw [← hus, ← hprfst]
          exact D3
      · intro hz
        have hz' : pr.1.quantityOrdered - pr.1.quantityReceived ≤ 0 := by rw [hprfst]; exact hz
        have hp2 : getProduct? db it.inventoryItemId = some pr.2 := by
          rw [← hprfst]
          exact hsnd pr hpr
        have hcondI : ∀ q ∈ pairs, q.1.id ≠ it.id ∨ q.1.quantityOrdered - q.1.quantityReceived ≤ 0 := by
          intro q hq
          by_cases hqe : q.1.id = it.id
          · have hqmem : q.1 ∈ db.orderItems := by
              have : q.1 ∈ pairs.map Prod.fst := List.mem_map_of_mem Prod.fst hq
              rw [hfst] at this
              exact (List.mem_filter.mp this).1
            have : q.1 = it := eq_of_key_eq_of_nodup (fun x => x.id) db.orderItems hnI hqmem hit hqe
            right
            rw [this]
            exact hz
          · exact Or.inl hqe
        have hcondP : ∀ q ∈ pairs,
            q.1.inventoryItemId ≠ it.inventoryItemId ∨ q.1.quantityOrdered - q.1.quantityReceived ≤ 0 := by
          intro q hq
          by_cases hqe : q.1.inventoryItemId = it.inventoryItemId
          · have hqf : q.1 ∈ db.orderItems.filter (fun x => x.orderId == oid) := by
              have : q.1 ∈ pairs.map Prod.fst := List.mem_map_of_mem Prod.fst hq
              rw [hfst] at this
              exact this
            have : q.1 = it := by
              refine eq_of_key_eq_of_nodup (fun x => x.inventoryItemId)
                (db.orderItems.filter (fun x => x.orderId == oid)) ?_ hqf hitf hqe
              exact filtered_inv_ids_nodup db hnPair oid
            right
            rw [this]
            exact hz
          · exact Or.inl hqe
        refine ⟨?_, ?_, pr.2, hp2, ?_⟩
        · rw [hdbitems it.id, LB it.id hcondI, hgetit]
        · rw [hdbprods it.inventoryItemId, LC it.inventoryItemId hcondP]
        · rw [← hus, ← hprfst]
          exact LE pr hpr hz'
    · intro it hit hne
      have hcondI : ∀ q ∈ pairs, q.1.id ≠ it.id ∨ q.1.quantityOrdered - q.1.quantityReceived ≤ 0 := by
        intro q hq
        left
        intro hqe
        have hqf : q.1 ∈ db.orderItems.filter (fun x => x.orderId == oid) := by
          have : q.1 ∈ pairs.map Prod.fst := List.mem_map_of_mem Prod.fst hq
          rw [hfst] at this
          exact this
        have hqmem : q.1 ∈ db.orderItems := (List.mem_filter.mp hqf).1
        have heq : q.1 = it := eq_of_key_eq_of_nodup (fun x => x.id) db.orderItems hnI hqmem hit hqe
        have : (it.orderId == oid) = true := heq ▸ (List.mem_filter.mp hqf).2
        exact hne (by simpa using this)
      rw [hdbitems it.id, LB it.id hcondI]

theorem confirmOrder_ok_iff (db : Db) (now oid : Nat) (notes : Option String) (hwf : WF db) :
    (∃ r, confirmOrder db now oid notes = .ok r) ↔
      ∃ o, getOrder? db oid = some o ∧ (o.status = "pending" ∨ o.status = "partial") := by
  obtain ⟨hnO, hnI, hnP, hnPair, hbounds, hfkP, hfkO, hltO, hltI⟩ := hwf
  constructor
  · rintro ⟨⟨db', o', us⟩, h⟩
    unfold confirmOrder at h
    cases hord : getOrder? db oid with
    | none => simp only [hord] at h; exact Except.noConfusion h
    | some order =>
      simp only [hord] at h
      by_cases hst : (!(order.status == "pending") && !(order.status == "partial")) = true
      · rw [if_pos hst] at h; exact Except.noConfusion h
      · refine ⟨order, rfl, ?_⟩
        by_cases h1 : order.status = "pending"
        · exact Or.inl h1
        · by_cases h2 : order.status = "partial"
          · exact Or.inr h2
          · exact absurd (by simp [h1, h2]) hst
  · rintro ⟨o, hord, hstat⟩
    have hfilt : ∀ it ∈ db.orderItems.filter (fun x => x.orderId == oid),
        ∃ p ∈ db.inventoryItems, p.id = it.inventoryItemId :=
      fun it hit => hfkP it (List.mem_filter.mp hit).1
    obtain ⟨prs, hprs⟩ := withProducts_isSome db hfilt
    have hst : (!(o.status == "pending") && !(o.status == "partial")) = false := by
      rcases hstat with h | h <;> simp [h]
    unfold confirmOrder
    simp only [hord, hst, Bool.false_eq_true, if_false, hprs]
    exact ⟨_, rfl⟩

/-! ## WF preservation through the confirm loop -/

theorem confirmStep_items_key (now : Nat) (db : Db) (pr : OrderItem × InventoryItem) :
    ((confirmStep now db pr).1.orderItems).map
        (fun it => (it.id, it.orderId, it.inventoryItemId, it.quantityOrdered))
      = db.orderItems.map (fun it => (it.id, it.orderId, it.inventoryItemId, it.quantityOrdered)) := by
  by_cases h : 0 < pr.1.quantityOrdered - pr.1.quantityReceived
  · simp only [confirmStep, if_pos h]
    exact orderItems_map_key_updateOrderItem _ _ _ _ (fun it => rfl)
  · simp [confirmStep, h]

theorem confirmStep_prod_ids (now : Nat) (db : Db) (pr : OrderItem × InventoryItem) :
    ((confirmStep now db pr).1.inventoryItems).map (fun p => p.id)
      = db.inventoryItems.map (fun p => p.id) := by
  by_cases h : 0 < pr.1.quantityOrdered - pr.1.quantityReceived
  · simp only [confirmStep, if_pos h]
    exact inventoryItems_map_key_updateProductStock _ _ _ _ (fun p => rfl)
  · simp [confirmStep, h]

theorem confirmStep_next (now : Nat) (db : Db) (pr : OrderItem × InventoryItem) :
    (confirmStep now db pr).1.nextOrderId = db.nextOrderId ∧
    (confirmStep now db pr).1.nextOrderItemId = db.nextOrderItemId := by
  by_cases h : 0 < pr.1.quantityOrdered - pr.1.quantityReceived
  · simp [confirmStep, h]
    exact ⟨rfl, rfl⟩
  · simp [confirmStep, h]

theorem confirmLoop_items_key (now : Nat) :
    ∀ (pairs : List (OrderItem × InventoryItem)) (db : Db),
      ((confirmLoop now db pairs).1.orderItems).map
          (fun it => (it.id, it.orderId, it.inventoryItemId, it.quantityOrdered))
        = db.orderItems.map (fun it => (it.id, it.orderId, it.inventoryItemId, it.quantityOrdered)) := by
  intro pairs
  induction pairs with
  | nil => intro db; rfl
  | cons pr rest ih =>
    intro db
    show ((confirmLoop now (confirmStep now db pr).1 rest).1.orderItems).map _ = _
    rw [ih, confirmStep_items_key]

theorem confirmLoop_prod_ids (now : Nat) :
    ∀ (pairs : List (OrderItem × InventoryItem)) (db : Db),
      ((confirmLoop now db pairs).1.inventoryItems).map (fun p => p.id)
        = db.inventoryItems.map (fun p => p.id) := by
  intro pairs
  induction pairs with
  | nil => intro db; rfl
  | cons pr rest ih =>
    intro db
    show ((confirmLoop now (confirmStep now db pr).1 rest).1.inventoryItems).map _ = _
    rw [ih, confirmStep_prod_ids]

theorem confirmLoop_next (now : Nat) :
    ∀ (pairs : List (OrderItem × InventoryItem)) (db : Db),
      (confirmLoop now db pairs).1.nextOrderId = db.nextOrderId ∧
      (confirmLoop now db pairs).1.nextOrderItemId = db.nextOrderItemId := by
  intro pairs
  induction pairs with
  | nil => intro db; exact ⟨rfl, rfl⟩
  | cons pr rest ih =>
    intro db
    obtain ⟨h1, h2⟩ := ih (confirmStep now db pr).1
    obtain ⟨h3, h4⟩ := confirmStep_next now db pr
    exact ⟨h1.trans h3, h2.trans h4⟩

theorem key_mem_transfer {l1 l2 : List OrderItem}
    (h : l1.map (fun it => (it.id, it.orderId, it.inventoryItemId, it.quantityOrdered))
       = l2.map (fun it => (it.id, it.orderId, it.inventoryItemId, it.quantityOrdered)))
    (it' : OrderItem) (hmem : it' ∈ l1) :
    ∃ it ∈ l2, it.id = it'.id ∧ it.orderId = it'.orderId ∧
      it.inventoryItemId = it'.inventoryItemId ∧ it.quantityOrdered = it'.quantityOrdered := by
  have hk : (it'.id, it'.orderId, it'.inventoryItemId, it'.quantityOrdered)
      ∈ l2.map (fun it => (it.id, it.orderId, it.inventoryItemId, it.quantityOrdered)) := by
    rw [← h]
    exact List.mem_map_of_mem _ hmem
  obtain ⟨it, hit, hkey⟩ := List.mem_map.mp hk
  simp only [Prod.mk.injEq] at hkey
  exact ⟨it, hit, hkey.1, hkey.2.1, hkey.2.2.1, hkey.2.2.2⟩

theorem items_ids_of_key {l1 l2 : List OrderItem}
    (h : l1.map (fun it => (it.id, it.orderId, it.inventoryItemId, it.quantityOrdered))
       = l2.map (fun it => (it.id, it.orderId, it.inventoryItemId, it.quantityOrdered))) :
    l1.map (fun it => it.id) = l2.map (fun it => it.id) := by
  have := congrArg (List.map (fun t : Nat × Nat × Nat × Int => t.1)) h
  simpa [List.map_map, Function.comp] using this

theorem items_pairs_of_key {l1 l2 : List OrderItem}
    (h : l1.map (fun it => (it.id, it.orderId, it.inventoryItemId, it.quantityOrdered))
       = l2.map (fun it => (it.id, it.orderId, it.inventoryItemId, it.quantityOrdered))) :
    l1.map (fun it => (it.orderId, it.inventoryItemId))
      = l2.map (fun it => (it.orderId, it.inventoryItemId)) := by
  have := congrArg (List.map (fun t : Nat × Nat × Nat × Int => (t.2.1, t.2.2.1))) h
  simpa [List.map_map, Function.comp] using this

theorem confirmStep_bounds (now : Nat) (db : Db) (pr : OrderItem × InventoryItem)
    (hlink : ∀ it ∈ db.orderItems, it.id = pr.1.id → it.quantityOrdered = pr.1.quantityOrdered)
    (hqpos : 0 ≤ pr.1.quantityOrdered)
    (hb : ∀ it ∈ db.orderItems, 0 ≤ it.quantityReceived ∧ it.quantityReceived ≤ it.quantityOrdered) :
    ∀ it ∈ (confirmStep now db pr).1.orderItems,
      0 ≤ it.quantityReceived ∧ it.quantityReceived ≤ it.quantityOrdered := by
  by_cases h : 0 < pr.1.quantityOrdered - pr.1.quantityReceived
  · simp only [confirmStep, if_pos h]
    intro it' hit'
    have hit'' : it' ∈ db.orderItems.map
        (fun it => if it.id == pr.1.id then
          { it with quantityReceived := pr.1.quantityOrdered, status := "completed",
                    receivedAt := some now } else it) := hit'
    obtain ⟨it, hit, rfl⟩ := List.mem_map.mp hit''
    by_cases hid : (it.id == pr.1.id) = true
    · have hord : it.quantityOrdered = pr.1.quantityOrdered :=
        hlink it hit (by simpa using hid)
      simp only [hid, if_true]
      exact ⟨by simpa using hqpos, by simp [hord]⟩
    · rw [if_neg hid]
      exact hb it hit
  · simp only [confirmStep, if_neg h]
    exact hb

theorem confirmLoop_bounds (now : Nat) :
    ∀ (pairs : List (OrderItem × InventoryItem)) (db : Db),
      (∀ pr ∈ pairs, ∀ it ∈ db.orderItems, it.id = pr.1.id →
        it.quantityOrdered = pr.1.quantityOrdered) →
      (∀ pr ∈ pairs, 0 ≤ pr.1.quantityOrdered) →
      (∀ it ∈ db.orderItems, 0 ≤ it.quantityReceived ∧ it.quantityReceived ≤ it.quantityOrdered) →
      ∀ it ∈ (confirmLoop now db pairs).1.orderItems,
        0 ≤ it.quantityReceived ∧ it.quantityReceived ≤ it.quantityOrdered := by
  intro pairs
  induction pairs with
  | nil => intro db _ _ hb; exact hb
  | cons pr rest ih =>
    intro db hlink hqpos hb
    show ∀ it ∈ (confirmLoop now (confirmStep now db pr).1 rest).1.orderItems, _
    have hkey := confirmStep_items_key now db pr
    apply ih (confirmStep now db pr).1
    · intro q hq it' hit' hid
      obtain ⟨it, hit, hid', _, _, hord⟩ := key_mem_transfer hkey it' hit'
      have := hlink q (List.mem_cons_of_mem pr hq) it hit (by rw [hid', hid])
      rw [← hord]
      exact this
    · exact fun q hq => hqpos q (List.mem_cons_of_mem pr hq)
    · exact confirmStep_bounds now db pr
        (hlink pr (List.mem_cons_self pr rest))
        (hqpos pr (List.mem_cons_self pr rest)) hb

theorem exists_id_of_map_id_eq {α : Type} (k : α → Nat) {l1 l2 : List α}
    (h : l1.map k = l2.map k) (x : Nat) (hx : ∃ a ∈ l1, k a = x) : ∃ a ∈ l2, k a = x := by
  obtain ⟨a, ha, hk⟩ := hx
  have hmem : x ∈ l2.map k := by
    rw [← h]
    exact hk ▸ List.mem_map_of_mem k ha
  obtain ⟨b, hb, hkb⟩ := List.mem_map.mp hmem
  exact ⟨b, hb, hkb⟩

theorem lt_of_ids_eq {α : Type} (k : α → Nat) {l1 l2 : List α}
    (h : l1.map k = l2.map k) (n : Nat) (hl : ∀ a ∈ l2, k a < n) : ∀ a ∈ l1, k a < n := by
  intro a ha
  have hmem : k a ∈ l2.map k := by
    rw [← h]
    exact List.mem_map_of_mem k ha
  obtain ⟨b, hb, hkb⟩ := List.mem_map.mp hmem
  rw [← hkb]
  exact hl b hb

theorem confirmOrder_WF (db : Db) (now oid : Nat) (notes : Option String)
    (db' : Db) (o' : Order) (us : List StockUpdate)
    (hwf : WF db) (h : confirmOrder db now oid notes = .ok (db', o', us)) : WF db' := by
  obtain ⟨hnO, hnI, hnP, hnPair, hbounds, hfkP, hfkO, hltO, hltI⟩ := hwf
  unfold confirmOrder at h
  cases hord : getOrder? db oid with
  | none => simp only [hord] at h; exact Except.noConfusion h
  | some order =>
  simp only [hord] at h
  by_cases hst : (!(order.status == "pending") && !(order.status == "partial")) = true
  · rw [if_pos hst] at h; exact Except.noConfusion h
  · rw [if_neg hst] at h
    cases hw : withProducts db (db.orderItems.filter (fun it => it.orderId == oid)) with
    | none => simp only [hw] at h; exact Except.noConfusion h
    | some pairs =>
    simp only [hw] at h
    simp only [Except.ok.injEq, Prod.mk.injEq] at h
    obtain ⟨hdb', ho', hus⟩ := h
    obtain ⟨hfst, hsnd⟩ := withProducts_fst db hw
    have hordersid : db'.orders.map (fun o => o.id) = db.orders.map (fun o => o.id) := by
      rw [← hdb']
      rw [orders_map_key_updateOrder]
      · exact congrArg (List.map (fun o => o.id)) (confirmLoop_orders now pairs db)
      · exact fun o => rfl
    have hitemsOfLoop : db'.orderItems = (confirmLoop now db pairs).1.orderItems := by
      rw [← hdb']
      rfl
    have hitemskey : db'.orderItems.map
          (fun it => (it.id, it.orderId, it.inventoryItemId, it.quantityOrdered))
        = db.orderItems.map
          (fun it => (it.id, it.orderId, it.inventoryItemId, it.quantityOrdered)) := by
      rw [hitemsOfLoop]
      exact confirmLoop_items_key now pairs db
    have hprodids : db'.inventoryItems.map (fun p => p.id)
        = db.inventoryItems.map (fun p => p.id) := by
      rw [← hdb']
      show ((confirmLoop now db pairs).1.inventoryItems).map _ = _
      exact confirmLoop_prod_ids now pairs db
    have hnext1 : db'.nextOrderId = db.nextOrderId := by
      rw [← hdb']
      exact (confirmLoop_next now pairs db).1
    have hnext2 : db'.nextOrderItemId = db.nextOrderItemId := by
      rw [← hdb']
      exact (confirmLoop_next now pairs db).2
    have hlink : ∀ pr ∈ pairs, ∀ it ∈ db.orderItems, it.id = pr.1.id →
        it.quantityOrdered = pr.1.quantityOrdered := by
      intro pr hpr it hit hid
      have hprmem : pr.1 ∈ db.orderItems := by
        have : pr.1 ∈ pairs.map Prod.fst := List.mem_map_of_mem Prod.fst hpr
        rw [hfst] at this
        exact (List.mem_filter.mp this).1
      have : it = pr.1 := eq_of_key_eq_of_nodup (fun x : OrderItem => x.id)
        db.orderItems hnI hit hprmem hid
      rw [this]
    have hqpos : ∀ pr ∈ pairs, 0 ≤ pr.1.quantityOrdered := by
      intro pr hpr
      have hprmem : pr.1 ∈ db.orderItems := by
        have : pr.1 ∈ pairs.map Prod.fst := List.mem_map_of_mem Prod.fst hpr
        rw [hfst] at this
        exact (List.mem_filter.mp this).1
      have hb := hbounds pr.1 hprmem
      omega
    refine ⟨?_, ?_, ?_, ?_, ?_, ?_, ?_, ?_, ?_⟩
    · rw [hordersid]; exact hnO
    · rw [items_ids_of_key hitemskey]; exact hnI
    · rw [hprodids]; exact hnP
    · rw [items_pairs_of_key hitemskey]; exact hnPair
    · rw [hitemsOfLoop]
      exact confirmLoop_bounds now pairs db hlink hqpos hbounds
    · intro it' hit'
      obtain ⟨it, hit, _, _, hinv, _⟩ := key_mem_transfer hitemskey it' hit'
      have hex := hfkP it hit
      rw [← hinv]
      exact exists_id_of_map_id_eq (fun p => p.id) hprodids.symm it.inventoryItemId hex
    · intro it' hit'
      obtain ⟨it, hit, _, hoid, _, _⟩ := key_mem_transfer hitemskey it' hit'
      have hex := hfkO it hit
      rw [← hoid]
      exact exists_id_of_map_id_eq (fun o => o.id) hordersid.symm it.orderId hex
    · rw [hnext1]
      exact lt_of_ids_eq (fun o : Order => o.id) hordersid db.nextOrderId hltO
    · rw [hnext2]
      exact lt_of_ids_eq (fun it : OrderItem => it.id) (items_ids_of_key hitemskey)
        db.nextOrderItemId hltI

/-! ## Partial reception: characterization of `receiveOrderItem` -/

theorem length_filter_eq_iff {α : Type} (p : α → Bool) (l : List α) :
    (l.filter p).length = l.length ↔ ∀ a ∈ l, p a = true := by
  constructor
  · intro h
    exact List.filter_eq_self.mp ((List.filter_sublist l).eq_of_length h)
  · intro h
    rw [List.filter_eq_self.mpr h]

theorem length_filter_pos_iff {α : Type} (p : α → Bool) (l : List α) :
    0 < (l.filter p).length ↔ ∃ a ∈ l, p a = true := by
  rw [← List.countP_eq_length_filter]
  exact List.countP_pos_iff

/-- Inversion of a successful receive: the validations passed and the
result is the write phase applied to the found rows. -/
theorem receiveOrderItem_ok_spec (db : Db) (now oid iid : Nat) (qty : Int) (notes : Option String)
    (db' : Db) (item' : OrderItem) (order' : Order) (su : StockUpdate)
    (h : receiveOrderItem db now oid iid qty notes = .ok (db', item', order', su)) :
    ∃ orderItem inventoryItem order,
      0 < qty ∧
      findOrderItem? db oid iid = some orderItem ∧
      getProduct? db orderItem.inventoryItemId = some inventoryItem ∧
      getOrder? db orderItem.orderId = some order ∧
      ¬ order.status = "cancelled" ∧
      newTotalOf orderItem qty ≤ orderItem.quantityOrdered ∧
      (db', item', order', su) = receiveApply db now oid iid qty notes orderItem inventoryItem order := by
  unfold receiveOrderItem at h
  by_cases hq : qty ≤ 0
  · rw [if_pos hq] at h; exact Except.noConfusion h
  · rw [if_neg hq] at h
    cases hfind : findOrderItem? db oid iid with
    | none => simp only [hfind] at h; exact Except.noConfusion h
    | some orderItem =>
    simp only [hfind] at h
    cases hp : getProduct? db orderItem.inventoryItemId with
    | none =>
      cases ho : getOrder? db orderItem.orderId <;>
        simp only [hp, ho] at h <;> exact Except.noConfusion h
    | some inventoryItem =>
    cases ho : getOrder? db orderItem.orderId with
    | none => simp only [hp, ho] at h; exact Except.noConfusion h
    | some order =>
    simp only [hp, ho] at h
    by_cases hc : (order.status == "cancelled") = true
    · rw [if_pos hc] at h; exact Except.noConfusion h
    · rw [if_neg hc] at h
      by_cases hover : orderItem.quantityOrdered < newTotalOf orderItem qty
      · rw [if_pos hover] at h; exact Except.noConfusion h
      · rw [if_neg hover] at h
        refine ⟨orderItem, inventoryItem, order, by omega, rfl, hp, ho,
          by simpa using hc, by omega, ?_⟩
        exact ((Except.ok.injEq _ _).mp h).symm

theorem receiveApply_item (db : Db) (now oid iid : Nat) (qty : Int) (notes : Option String)
    (orderItem : OrderItem) (inventoryItem : InventoryItem) (order : Order) :
    (receiveApply db now oid iid qty notes orderItem inventoryItem order).2.1
      = recvUpdLine now qty notes orderItem orderItem := rfl

theorem receiveApply_su (db : Db) (now oid iid : Nat) (qty : Int) (notes : Option String)
    (orderItem : OrderItem) (inventoryItem : InventoryItem) (order : Order) :
    (receiveApply db now oid iid qty notes orderItem inventoryItem order).2.2.2
      = ⟨orderItem.inventoryItemId, inventoryItem.nombre, inventoryItem.stock, qty,
         inventoryItem.stock + qty⟩ := rfl

theorem receiveApply_order_status (db : Db) (now oid iid : Nat) (qty : Int)
    (notes : Option String) (orderItem : OrderItem) (inventoryItem : InventoryItem)
    (order : Order) :
    ((receiveApply db now oid iid qty notes orderItem inventoryItem order).2.2.1).status
      = recvOrderStatus
          (((receiveApply db now oid iid qty notes orderItem inventoryItem order).1).orderItems.filter
            (fun it => it.orderId == oid)) := rfl

theorem receiveApply_product (db : Db) (now oid iid : Nat) (qty : Int) (notes : Option String)
    (orderItem : OrderItem) (inventoryItem : InventoryItem) (order : Order) :
    getProduct? (receiveApply db now oid iid qty notes orderItem inventoryItem order).1
        orderItem.inventoryItemId
      = (getProduct? db orderItem.inventoryItemId).map
          (fun p => { p with stock := inventoryItem.stock + qty }) := by
  show getProduct?
      (updateOrder (updateOrderItem (updateProductStock db orderItem.inventoryItemId
          (inventoryItem.stock + qty)) iid (recvUpdLine now qty notes orderItem)) oid _)
      orderItem.inventoryItemId = _
  rw [getProduct?_updateOrder, getProduct?_updateOrderItem, getProduct?_updateProductStock_eq]

theorem receiveApply_product_ne (db : Db) (now oid iid : Nat) (qty : Int) (notes : Option String)
    (orderItem : OrderItem) (inventoryItem : InventoryItem) (order : Order) (qid : Nat)
    (hne : qid ≠ orderItem.inventoryItemId) :
    getProduct? (receiveApply db now oid iid qty notes orderItem inventoryItem order).1 qid
      = getProduct? db qid := by
  show getProduct?
      (updateOrder (updateOrderItem (updateProductStock db orderItem.inventoryItemId
          (inventoryItem.stock + qty)) iid (recvUpdLine now qty notes orderItem)) oid _)
      qid = _
  rw [getProduct?_updateOrder, getProduct?_updateOrderItem,
      getProduct?_updateProductStock_ne _ _ _ _ hne]

/-- Transfer of the structural `WF` fields along an operation that keeps
every primary key, every line's order/product reference and ordered
quantity, and the AUTOINCREMENT counters. -/
theorem WF_of_skeleton (db db' : Db)
    (hord : db'.orders.map (fun o => o.id) = db.orders.map (fun o => o.id))
    (hkey : db'.orderItems.map (fun it => (it.id, it.orderId, it.inventoryItemId, it.quantityOrdered))
          = db.orderItems.map (fun it => (it.id, it.orderId, it.inventoryItemId, it.quantityOrdered)))
    (hprod : db'.inventoryItems.map (fun p => p.id) = db.inventoryItems.map (fun p => p.id))
    (hn1 : db'.nextOrderId = db.nextOrderId) (hn2 : db'.nextOrderItemId = db.nextOrderItemId)
    (hbounds' : ∀ it ∈ db'.orderItems,
      0 ≤ it.quantityReceived ∧ it.quantityReceived ≤ it.quantityOrdered)
    (hwf : WF db) : WF db' := by
  obtain ⟨hnO, hnI, hnP, hnPair, _, hfkP, hfkO, hltO, hltI⟩ := hwf
  refine ⟨?_, ?_, ?_, ?_, hbounds', ?_, ?_, ?_, ?_⟩
  · rw [hord]; exact hnO
  · rw [items_ids_of_key hkey]; exact hnI
  · rw [hprod]; exact hnP
  · rw [items_pairs_of_key hkey]; exact hnPair
  · intro it' hit'
    obtain ⟨it, hit, _, _, hinv, _⟩ := key_mem_transfer hkey it' hit'
    rw [← hinv]
    exact exists_id_of_map_id_eq (fun p => p.id) hprod.symm it.inventoryItemId (hfkP it hit)
  · intro it' hit'
    obtain ⟨it, hit, _, hoid, _, _⟩ := key_mem_transfer hkey it' hit'
    rw [← hoid]
    exact exists_id_of_map_id_eq (fun o => o.id) hord.symm it.orderId (hfkO it hit)
  · rw [hn1]
    exact lt_of_ids_eq (fun o : Order => o.id) hord db.nextOrderId hltO
  · rw [hn2]
    exact lt_of_ids_eq (fun it : OrderItem => it.id) (items_ids_of_key hkey)
      db.nextOrderItemId hltI

theorem receiveOrderItem_error_iff (db : Db) (now oid iid : Nat) (qty : Int)
    (notes : Option String) (hwf : WF db) :
    (∃ e, receiveOrderItem db now oid iid qty notes = .error e) ↔
      (qty ≤ 0 ∨ findOrderItem? db oid iid = none ∨
        ∃ it, findOrderItem? db oid iid = some it ∧
          ((∃ o, getOrder? db it.orderId = some o ∧ o.status = "cancelled") ∨
            it.quantityOrdered < it.quantityReceived + qty)) := by
  obtain ⟨hnO, hnI, hnP, hnPair, hbounds, hfkP, hfkO, hltO, hltI⟩ := hwf
  by_cases hq : qty ≤ 0
  · exact ⟨fun _ => Or.inl hq, fun _ => ⟨_, by unfold receiveOrderItem; rw [if_pos hq]⟩⟩
  · cases hfind : findOrderItem? db oid iid with
    | none =>
      constructor
      · intro _; exact Or.inr (Or.inl rfl)
      · intro _
        exact ⟨_, by unfold receiveOrderItem; rw [if_neg hq]; simp only [hfind]; rfl⟩
    | some orderItem =>
      have hmem : orderItem ∈ db.orderItems := List.mem_of_find?_eq_some hfind
      have hpex : (db.inventoryItems.find? (fun x => x.id == orderItem.inventoryItemId)).isSome := by
        rw [List.find?_isSome]
        obtain ⟨p, hpmem, hpid⟩ := hfkP orderItem hmem
        exact ⟨p, hpmem, by simp [hpid]⟩
      obtain ⟨q, hq'⟩ := Option.isSome_iff_exists.mp hpex
      have hoex : (db.orders.find? (fun x => x.id == orderItem.orderId)).isSome := by
        rw [List.find?_isSome]
        obtain ⟨o, homem, hoid'⟩ := hfkO orderItem hmem
        exact ⟨o, homem, by simp [hoid']⟩
      obtain ⟨w, hw⟩ := Option.isSome_iff_exists.mp hoex
      have hq'' : getProduct? db orderItem.inventoryItemId = some q := hq'
      have hw' : getOrder? db orderItem.orderId = some w := hw
      constructor
      · rintro ⟨e, he⟩
        unfold receiveOrderItem at he
        rw [if_neg hq] at he
        simp only [hfind, hq'', hw'] at he
        by_cases hc : (w.status == "cancelled") = true
        · exact Or.inr (Or.inr ⟨orderItem, rfl, Or.inl ⟨w, hw', by simpa using hc⟩⟩)
        · rw [if_neg hc] at he
          by_cases hover : orderItem.quantityOrdered < newTotalOf orderItem qty
          · refine Or.inr (Or.inr ⟨orderItem, rfl, Or.inr ?_⟩)
            simpa [newTotalOf] using hover
          · rw [if_neg hover] at he
            exact Except.noConfusion he
      · rintro (h | h | ⟨it, hit, hsub⟩)
        · exact absurd h hq
        · exact Option.noConfusion h
        · have hite : orderItem = it := by injection hit
          subst hite
          rcases hsub with ⟨o2, ho2, hco2⟩ | hover
          · have ho2w : o2 = w := by
              rw [hw'] at ho2
              injection ho2 with h2
              exact h2.symm
            exact ⟨_, by
              unfold receiveOrderItem
              rw [if_neg hq]
              simp only [hfind, hq'', hw']
              rw [if_pos (by simp [← ho2w, hco2])]⟩
          · by_cases hc : (w.status == "cancelled") = true
            · exact ⟨_, by
                unfold receiveOrderItem
                rw [if_neg hq]
                simp only [hfind, hq'', hw']
                rw [if_pos hc]⟩
            · exact ⟨_, by
                unfold receiveOrderItem
                rw [if_neg hq]
                simp only [hfind, hq'', hw']
                rw [if_neg hc, if_pos (by simpa [newTotalOf] using hover)]⟩

theorem receiveOrderItem_WF (db : Db) (now oid iid : Nat) (qty : Int) (notes : Option String)
    (db' : Db) (item' : OrderItem) (order' : Order) (su : StockUpdate)
    (hwf : WF db) (h : receiveOrderItem db now oid iid qty notes = .ok (db', item', order', su)) :
    WF db' := by
  obtain ⟨orderItem, inventoryItem, order, hqpos, hfind, hp, ho, hnc, hle, heq⟩ :=
    receiveOrderItem_ok_spec db now oid iid qty notes db' item' order' su h
  have hdb' : db' = (receiveApply db now oid iid qty notes orderItem inventoryItem order).1 :=
    congrArg Prod.fst heq
  have hmem : orderItem ∈ db.orderItems := List.mem_of_find?_eq_some hfind
  have hidit : orderItem.id = iid := by
    have := List.find?_some hfind
    simp only [Bool.and_eq_true, beq_iff_eq] at this
    exact this.2
  obtain ⟨hnO, hnI, hnP, hnPair, hbounds, hfkP, hfkO, hltO, hltI⟩ := hwf
  have happly : (receiveApply db now oid iid qty notes orderItem inventoryItem order).1
      = updateOrder (updateOrderItem (updateProductStock db orderItem.inventoryItemId
          (inventoryItem.stock + qty)) iid (recvUpdLine now qty notes orderItem)) oid
          (recvUpdOrder now (recvOrderStatus
            (((updateOrderItem (updateProductStock db orderItem.inventoryItemId
              (inventoryItem.stock + qty)) iid
              (recvUpdLine now qty notes orderItem)).orderItems).filter
              (fun it => it.orderId == oid)))) := rfl
  refine WF_of_skeleton db db' ?_ ?_ ?_ ?_ ?_ ?_
    ⟨hnO, hnI, hnP, hnPair, hbounds, hfkP, hfkO, hltO, hltI⟩
  · rw [hdb', happly]
    rw [orders_map_key_updateOrder]
    · rfl
    · exact fun o => rfl
  · rw [hdb', happly]
    show ((updateOrderItem (updateProductStock db _ _) iid
        (recvUpdLine now qty notes orderItem)).orderItems).map _ = _
    rw [orderItems_map_key_updateOrderItem]
    · rfl
    · exact fun it => rfl
  · rw [hdb', happly]
    show ((updateProductStock db orderItem.inventoryItemId _).inventoryItems).map _ = _
    rw [inventoryItems_map_key_updateProductStock]
    · exact fun p => rfl
  · rw [hdb', happly]; rfl
  · rw [hdb', happly]; rfl
  · rw [hdb', happly]
    intro it' hit'
    have hit'' : it' ∈ (updateProductStock db orderItem.inventoryItemId
        (inventoryItem.stock + qty)).orderItems.map
        (fun it => if it.id == iid then recvUpdLine now qty notes orderItem it else it) := hit'
    obtain ⟨it, hit, rfl⟩ := List.mem_map.mp hit''
    have hitdb : it ∈ db.orderItems := hit
    by_cases hid : (it.id == iid) = true
    · have hiteq : it = orderItem := by
        refine eq_of_key_eq_of_nodup (fun x : OrderItem => x.id) db.orderItems hnI hitdb hmem ?_
        show it.id = orderItem.id
        rw [hidit]
        simpa using hid
      rw [if_pos hid]
      have hb := hbounds orderItem hmem
      simp only [recvUpdLine, newTotalOf, hiteq]
      constructor
      · omega
      · simpa [newTotalOf] using hle
    · rw [if_neg hid]
      exact hbounds it hitdb

/-! ## Order creation: characterization of `validateItems` and `createOrder` -/

theorem validateItems_ok_spec (inv : List InventoryItem) :
    ∀ (items : List ReqItem) (ti : Int) (tp : Rat) (vs : List VItem),
    validateItems inv items = .ok (ti, tp, vs) →
    vs.map (fun v => (v.inventoryItemId, v.quantityOrdered))
      = (items.filter (fun i => decide (0 < i.quantityOrdered))).map
          (fun i => (i.inventoryItemId, i.quantityOrdered)) ∧
    (∀ v ∈ vs, ∃ p, inv.find? (fun q => q.id == v.inventoryItemId) = some p ∧
        p.id = v.inventoryItemId ∧ v.priceAtTime = p.precio ∧ p ∈ inv) ∧
    (∀ v ∈ vs, 0 < v.quantityOrdered) ∧
    ti = (vs.map (fun v => v.quantityOrdered)).sum ∧
    tp = (vs.map (fun v => v.priceAtTime * (v.quantityOrdered : Rat))).sum := by
  intro items
  induction items with
  | nil =>
    intro ti tp vs h
    simp only [validateItems, Except.ok.injEq, Prod.mk.injEq] at h
    obtain ⟨h1, h2, h3⟩ := h
    subst h1; subst h2; subst h3
    exact ⟨rfl, fun v hv => absurd hv (List.not_mem_nil v),
           fun v hv => absurd hv (List.not_mem_nil v), rfl, rfl⟩
  | cons item rest ih =>
    intro ti tp vs h
    unfold validateItems at h
    cases hfind : inv.find? (fun p => p.id == item.inventoryItemId) with
    | none => simp only [hfind] at h; exact Except.noConfusion h
    | some p =>
    simp only [hfind] at h
    by_cases hq : item.quantityOrdered ≤ 0
    · rw [if_pos hq] at h
      obtain ⟨h1, h2, h3, h4, h5⟩ := ih ti tp vs h
      have hfilt : List.filter (fun i => decide (0 < i.quantityOrdered)) (item :: rest)
          = List.filter (fun i => decide (0 < i.quantityOrdered)) rest := by
        simp only [List.filter_cons]
        rw [if_neg (by simpa using hq)]
      rw [hfilt]
      exact ⟨h1, h2, h3, h4, h5⟩
    · rw [if_neg hq] at h
      cases hrec : validateItems inv rest with
      | error e => rw [hrec] at h; exact Except.noConfusion h
      | ok trip =>
      obtain ⟨ti', tp', vs'⟩ := trip
      rw [hrec] at h
      simp only [Except.ok.injEq, Prod.mk.injEq] at h
      obtain ⟨h1, h2, h3⟩ := h
      obtain ⟨g1, g2, g3, g4, g5⟩ := ih ti' tp' vs' hrec
      have hpid : p.id = item.inventoryItemId := by simpa using List.find?_some hfind
      subst h1; subst h2; subst h3
      have hfilt : List.filter (fun i => decide (0 < i.quantityOrdered)) (item :: rest)
          = item :: List.filter (fun i => decide (0 < i.quantityOrdered)) rest := by
        simp only [List.filter_cons]
        rw [if_pos (by simpa using (by omega : 0 < item.quantityOrdered))]
      refine ⟨?_, ?_, ?_, ?_, ?_⟩
      · rw [hfilt]
        simp only [List.map_cons, g1, hpid]
      · intro v hv
        rcases List.mem_cons.mp hv with rfl | hv'
        · exact ⟨p, by simpa [hpid] using hfind, by simp [hpid], rfl,
                 List.mem_of_find?_eq_some hfind⟩
        · exact g2 v hv'
      · intro v hv
        rcases List.mem_cons.mp hv with rfl | hv'
        · simpa using (by omega : 0 < item.quantityOrdered)
        · exact g3 v hv'
      · simp only [List.map_cons, List.sum_cons, g4]
      · simp only [List.map_cons, List.sum_cons, g5]

theorem validateItems_error_first (inv : List InventoryItem) :
    ∀ (items : List ReqItem) (b : ReqItem),
    items.find? (fun i => (inv.find? (fun p => p.id == i.inventoryItemId)).isNone) = some b →
    validateItems inv items
      = .error (.badRequest ("Producto con ID " ++ Nat.repr b.inventoryItemId
          ++ " no encontrado")) := by
  intro items
  induction items with
  | nil => intro b h; exact Option.noConfusion h
  | cons item rest ih =>
    intro b h
    by_cases hmiss : (inv.find? (fun p => p.id == item.inventoryItemId)).isNone = true
    · have hb : b = item := by
        simp only [List.find?, hmiss] at h
        injection h with h'
        exact h'.symm
      subst hb
      unfold validateItems
      cases hfind : inv.find? (fun p => p.id == b.inventoryItemId) with
      | none => rfl
      | some p => rw [hfind] at hmiss; simp at hmiss
    · have hfalse : (inv.find? (fun p => p.id == item.inventoryItemId)).isNone = false := by
        simpa using hmiss
      simp only [List.find?, hfalse] at h
      have hrec := ih b h
      have hsome : ∃ p, inv.find? (fun q => q.id == item.inventoryItemId) = some p := by
        cases hopt : inv.find? (fun q => q.id == item.inventoryItemId) with
        | none => rw [hopt] at hmiss; simp at hmiss
        | some p => exact ⟨p, rfl⟩
      obtain ⟨p, hfind⟩ := hsome
      unfold validateItems
      simp only [hfind]
      by_cases hq : item.quantityOrdered ≤ 0
      · rw [if_pos hq]
        exact hrec
      · rw [if_neg hq]
        simp only [hrec]

theorem validateItems_ok_of_all_found (inv : List InventoryItem) :
    ∀ (items : List ReqItem),
    (∀ i ∈ items, ∃ p ∈ inv, p.id = i.inventoryItemId) →
    ∃ ti tp vs, validateItems inv items = .ok (ti, tp, vs) := by
  intro items
  induction items with
  | nil => intro _; exact ⟨0, 0, [], rfl⟩
  | cons item rest ih =>
    intro hall
    obtain ⟨p, hp, hpid⟩ := hall item (List.mem_cons_self item rest)
    have hfind : (inv.find? (fun q => q.id == item.inventoryItemId)).isSome := by
      rw [List.find?_isSome]
      exact ⟨p, hp, by simp [hpid]⟩
    obtain ⟨q, hq⟩ := Option.isSome_iff_exists.mp hfind
    obtain ⟨ti, tp, vs, hrec⟩ := ih (fun i hi => hall i (List.mem_cons_of_mem item hi))
    unfold validateItems
    simp only [hq]
    by_cases hqty : item.quantityOrdered ≤ 0
    · rw [if_pos hqty]
      exact ⟨ti, tp, vs, hrec⟩
    · rw [if_neg hqty]
      simp only [hrec]
      exact ⟨_, _, _, rfl⟩

theorem buildItems_fields :
    ∀ (vs : List VItem) (s oid : Nat), ∀ b ∈ buildItems s oid vs,
      b.orderId = oid ∧ b.quantityReceived = 0 ∧ b.status = "pending" ∧
      b.receivedAt = none ∧ b.notes = none ∧ s ≤ b.id ∧ b.id < s + vs.length ∧
      ∃ v ∈ vs, b.inventoryItemId = v.inventoryItemId ∧
        b.quantityOrdered = v.quantityOrdered ∧ b.priceAtTime = v.priceAtTime := by
  intro vs
  induction vs with
  | nil => intro s oid b hb; exact absurd hb (List.not_mem_nil b)
  | cons v rest ih =>
    intro s oid b hb
    rcases List.mem_cons.mp hb with rfl | hb'
    · refine ⟨rfl, rfl, rfl, rfl, rfl, Nat.le_refl s, by simp only [List.length_cons]; omega,
        v, List.mem_cons_self v rest, rfl, rfl, rfl⟩
    · obtain ⟨f1, f2, f3, f4, f5, f6, f7, v', hv', f8⟩ := ih (s + 1) oid b hb'
      refine ⟨f1, f2, f3, f4, f5, by omega, by simp only [List.length_cons]; omega,
        v', List.mem_cons_of_mem v hv', f8⟩

theorem buildItems_length :
    ∀ (vs : List VItem) (s oid : Nat), (buildItems s oid vs).length = vs.length := by
  intro vs
  induction vs with
  | nil => intro s oid; rfl
  | cons v rest ih => intro s oid; simp [buildItems, ih]

theorem buildItems_ids_nodup :
    ∀ (vs : List VItem) (s oid : Nat), ((buildItems s oid vs).map (fun it => it.id)).Nodup := by
  intro vs
  induction vs with
  | nil => intro s oid; exact List.nodup_nil
  | cons v rest ih =>
    intro s oid
    simp only [buildItems, List.map_cons, List.nodup_cons]
    refine ⟨?_, ih (s + 1) oid⟩
    intro hmem
    obtain ⟨b, hb, hbid⟩ := List.mem_map.mp hmem
    obtain ⟨_, _, _, _, _, h6, _, _⟩ := buildItems_fields rest (s + 1) oid b hb
    omega

theorem buildItems_pairs :
    ∀ (vs : List VItem) (s oid : Nat),
      (buildItems s oid vs).map (fun it => (it.orderId, it.inventoryItemId))
        = vs.map (fun v => (oid, v.inventoryItemId)) := by
  intro vs
  induction vs with
  | nil => intro s oid; rfl
  | cons v rest ih => intro s oid; simp [buildItems, ih]

theorem buildItems_iq :
    ∀ (vs : List VItem) (s oid : Nat),
      (buildItems s oid vs).map (fun b => (b.inventoryItemId, b.quantityOrdered))
        = vs.map (fun v => (v.inventoryItemId, v.quantityOrdered)) := by
  intro vs
  induction vs with
  | nil => intro s oid; rfl
  | cons v rest ih => intro s oid; simp [buildItems, ih]

theorem createOrder_ok_spec (db : Db) (year now userId : Nat) (req : CreateReq)
    (db' : Db) (o : Order) (its : List OrderItem)
    (h : createOrder db year now userId req = .ok (db', o, its)) :
    ∃ ti tp vs,
      validateItems db.inventoryItems req.items = .ok (ti, tp, vs) ∧
      vs ≠ [] ∧
      (vs.map (fun v => v.inventoryItemId)).Nodup ∧
      o = ⟨db.nextOrderId, generateOrderNumber year db.orders, req.type, req.brand, "pending",
           ti, tp, now, none, req.notes, userId⟩ ∧
      its = buildItems db.nextOrderItemId db.nextOrderId vs ∧
      db' = { db with
              orders := db.orders ++ [o], orderItems := db.orderItems ++ its,
              nextOrderId := db.nextOrderId + 1,
              nextOrderItemId := db.nextOrderItemId + its.length } := by
  unfold createOrder at h
  by_cases hg : (req.type == "" || req.items.isEmpty) = true
  · rw [if_pos hg] at h; exact Except.noConfusion h
  · rw [if_neg hg] at h
    cases hv : validateItems db.inventoryItems req.items with
    | error e => simp only [hv] at h; exact Except.noConfusion h
    | ok trip =>
    obtain ⟨ti, tp, vs⟩ := trip
    simp only [hv] at h
    by_cases hemp : vs.isEmpty = true
    · rw [if_pos hemp] at h; exact Except.noConfusion h
    · rw [if_neg hemp] at h
      by_cases hnd : (vs.map (fun v => v.inventoryItemId)).Nodup
      · rw [if_pos hnd] at h
        simp only [Except.ok.injEq, Prod.mk.injEq] at h
        obtain ⟨h1, h2, h3⟩ := h
        refine ⟨ti, tp, vs, rfl, by simpa using hemp, hnd, h2.symm, h3.symm, ?_⟩
        rw [← h1, ← h2, ← h3]
      · rw [if_neg hnd] at h
        exact Except.noConfusion h

theorem createOrder_missing_product (db : Db) (year now userId : Nat) (req : CreateReq)
    (b : ReqItem) (hg : ¬(req.type == "" || req.items.isEmpty) = true)
    (hb : req.items.find? (fun i =>
        (db.inventoryItems.find? (fun p => p.id == i.inventoryItemId)).isNone) = some b) :
    createOrder db year now userId req
      = .error (.badRequest ("Producto con ID " ++ Nat.repr b.inventoryItemId
          ++ " no encontrado")) := by
  unfold createOrder
  rw [if_neg hg]
  simp only [validateItems_error_first db.inventoryItems req.items b hb]

theorem createOrder_all_nonpositive (db : Db) (year now userId : Nat) (req : CreateReq)
    (hg : ¬(req.type == "" || req.items.isEmpty) = true)
    (hall : ∀ i ∈ req.items, ∃ p ∈ db.inventoryItems, p.id = i.inventoryItemId)
    (hneg : ∀ i ∈ req.items, i.quantityOrdered ≤ 0) :
    createOrder db year now userId req
      = .error (.badRequest "El pedido debe tener al menos un item con cantidad mayor a 0") := by
  obtain ⟨ti, tp, vs, hv⟩ := validateItems_ok_of_all_found db.inventoryItems req.items hall
  obtain ⟨h1, _, _, _, _⟩ := validateItems_ok_spec db.inventoryItems req.items ti tp vs hv
  have hfilt : req.items.filter (fun i => decide (0 < i.quantityOrdered)) = [] := by
    rw [List.filter_eq_nil_iff]
    intro a ha
    simpa using hneg a ha
  have hvs : vs = [] := by
    rw [hfilt] at h1
    simpa using h1
  subst hvs
  unfold createOrder
  rw [if_neg hg]
  simp only [hv]
  rfl

theorem createOrder_duplicate_product (db : Db) (year now userId : Nat) (req : CreateReq)
    (hdup : ¬ ((req.items.filter (fun i => decide (0 < i.quantityOrdered))).map
        (fun i => i.inventoryItemId)).Nodup) :
    ∃ e, createOrder db year now userId req = .error e := by
  unfold createOrder
  by_cases hg : (req.type == "" || req.items.isEmpty) = true
  · rw [if_pos hg]
    exact ⟨_, rfl⟩
  · rw [if_neg hg]
    cases hv : validateItems db.inventoryItems req.items with
    | error e => exact ⟨e, by simp only [hv]⟩
    | ok trip =>
      obtain ⟨ti, tp, vs⟩ := trip
      obtain ⟨h1, _, _, _, _⟩ := validateItems_ok_spec db.inventoryItems req.items ti tp vs hv
      have hinv : vs.map (fun v => v.inventoryItemId)
          = (req.items.filter (fun i => decide (0 < i.quantityOrdered))).map
              (fun i => i.inventoryItemId) := by
        have h2 := congrArg (List.map (fun t : Nat × Int => t.1)) h1
        simpa [List.map_map, Function.comp] using h2
      by_cases hemp : vs.isEmpty = true
      · exact ⟨_, by simp only [hv]; rw [if_pos hemp]⟩
      · have hnd : ¬ (vs.map (fun v => v.inventoryItemId)).Nodup := by
          rw [hinv]
          exact hdup
        exact ⟨_, by simp only [hv]; rw [if_neg hemp, if_neg hnd]⟩

theorem createOrder_WF (db : Db) (year now userId : Nat) (req : CreateReq)
    (db' : Db) (o : Order) (its : List OrderItem)
    (hwf : WF db) (h : createOrder db year now userId req = .ok (db', o, its)) : WF db' := by
  obtain ⟨hnO, hnI, hnP, hnPair, hbounds, hfkP, hfkO, hltO, hltI⟩ := hwf
  obtain ⟨ti, tp, vs, hv, hvne, hnd, ho, hits, hdb'⟩ :=
    createOrder_ok_spec db year now userId req db' o its h
  obtain ⟨hmapiq, hfound, hpos, hti, htp⟩ :=
    validateItems_ok_spec db.inventoryItems req.items ti tp vs hv
  have hoid : o.id = db.nextOrderId := by rw [ho]
  have hitsfields := buildItems_fields vs db.nextOrderItemId db.nextOrderId
  have hlen : its.length = vs.length := by rw [hits]; exact buildItems_length vs _ _
  refine ⟨?_, ?_, ?_, ?_, ?_, ?_, ?_, ?_, ?_⟩
  · rw [hdb']
    show ((db.orders ++ [o]).map (fun x => x.id)).Nodup
    rw [List.map_append, List.nodup_append]
    refine ⟨hnO, by simp, ?_⟩
    intro a ha hb
    simp only [List.map_cons, List.map_nil, List.mem_singleton] at hb
    obtain ⟨oo, hoo, hooa⟩ := List.mem_map.mp ha
    have := hltO oo hoo
    omega
  · rw [hdb']
    show ((db.orderItems ++ its).map (fun x => x.id)).Nodup
    rw [List.map_append, List.nodup_append]
    refine ⟨hnI, by rw [hits]; exact buildItems_ids_nodup vs _ _, ?_⟩
    intro a ha hb
    obtain ⟨it1, hit1, ha1⟩ := List.mem_map.mp ha
    obtain ⟨it2, hit2, hb1⟩ := List.mem_map.mp hb
    rw [hits] at hit2
    obtain ⟨_, _, _, _, _, h6, _, _⟩ := hitsfields it2 hit2
    have := hltI it1 hit1
    omega
  · rw [hdb']
    exact hnP
  · rw [hdb']
    show ((db.orderItems ++ its).map (fun x => (x.orderId, x.inventoryItemId))).Nodup
    rw [List.map_append, List.nodup_append]
    refine ⟨hnPair, ?_, ?_⟩
    · rw [hits, buildItems_pairs]
      have : vs.map (fun v => (db.nextOrderId, v.inventoryItemId))
          = (vs.map (fun v => v.inventoryItemId)).map (fun x => (db.nextOrderId, x)) := by
        simp [List.map_map, Function.comp]
      rw [this]
      refine List.Nodup.map ?_ hnd
      intro a b hab
      simpa using hab
    · intro a ha hb
      obtain ⟨it1, hit1, ha1⟩ := List.mem_map.mp ha
      obtain ⟨it2, hit2, hb1⟩ := List.mem_map.mp hb
      rw [hits] at hit2
      obtain ⟨hf1, _, _, _, _, _, _, _⟩ := hitsfields it2 hit2
      obtain ⟨o2, ho2, ho2id⟩ := hfkO it1 hit1
      have hlt := hltO o2 ho2
      have : it1.orderId = it2.orderId := by
        rw [← ha1] at hb1
        exact ((Prod.mk.injEq _ _ _ _).mp hb1).1.symm
      rw [hf1] at this
      omega
  · rw [hdb']
    intro it hit
    rcases List.mem_append.mp hit with hold | hnew
    · exact hbounds it hold
    · rw [hits] at hnew
      obtain ⟨_, h2, _, _, _, _, _, v, hvv, _, hqo, _⟩ := hitsfields it hnew
      have := hpos v hvv
      rw [h2, hqo]
      omega
  · rw [hdb']
    intro it hit
    rcases List.mem_append.mp hit with hold | hnew
    · exact hfkP it hold
    · rw [hits] at hnew
      obtain ⟨_, _, _, _, _, _, _, v, hvv, hiv, _, _⟩ := hitsfields it hnew
      obtain ⟨p, _, hpid, _, hpmem⟩ := hfound v hvv
      exact ⟨p, hpmem, by rw [hpid, hiv]⟩
  · rw [hdb']
    intro it hit
    rcases List.mem_append.mp hit with hold | hnew
    · obtain ⟨o2, ho2, ho2id⟩ := hfkO it hold
      exact ⟨o2, List.mem_append_left _ ho2, ho2id⟩
    · rw [hits] at hnew
      obtain ⟨hf1, _, _, _, _, _, _, _⟩ := hitsfields it hnew
      refine ⟨o, List.mem_append_right _ (List.mem_singleton_self o), ?_⟩
      rw [hoid, hf1]
  · rw [hdb']
    intro o2 ho2
    rcases List.mem_append.mp ho2 with hold | hnew
    · have := hltO o2 hold
      show o2.id < db.nextOrderId + 1
      omega
    · rw [List.mem_singleton] at hnew
      subst hnew
      show o2.id < db.nextOrderId + 1
      omega
  · rw [hdb']
    intro it hit
    rcases List.mem_append.mp hit with hold | hnew
    · have := hltI it hold
      show it.id < db.nextOrderItemId + its.length
      omega
    · rw [hits] at hnew
      obtain ⟨_, _, _, _, _, _, h7, _⟩ := hitsfields it hnew
      show it.id < db.nextOrderItemId + its.length
      rw [hlen]
      omega

/-! ## Cancellation: characterization of `cancelOrder` -/

theorem cancelOrder_ok_spec (db : Db) (oid : Nat) (reason : Option String)
    (db' : Db) (o' : Order) (h : cancelOrder db oid reason = .ok (db', o')) :
    ∃ order, getOrder? db oid = some order ∧ order.status = "pending" ∧
      o' = { order with
             status := "cancelled",
             notes := appendNote order.notes "\nCancelado: " reason } ∧
      db' = updateOrder db oid (fun x =>
        { x with
          status := "cancelled",
          notes := appendNote order.notes "\nCancelado: " reason }) := by
  unfold cancelOrder at h
  cases hord : getOrder? db oid with
  | none => simp only [hord] at h; exact Except.noConfusion h
  | some order =>
    simp only [hord] at h
    by_cases hst : (!(order.status == "pending")) = true
    · rw [if_pos hst] at h; exact Except.noConfusion h
    · rw [if_neg hst] at h
      simp only [Except.ok.injEq, Prod.mk.injEq] at h
      exact ⟨order, rfl, by simpa using hst, h.2.symm, h.1.symm⟩

theorem cancelOrder_ok_iff (db : Db) (oid : Nat) (reason : Option String) :
    (∃ r, cancelOrder db oid reason = .ok r) ↔
      ∃ o, getOrder? db oid = some o ∧ o.status = "pending" := by
  constructor
  · rintro ⟨⟨db', o'⟩, h⟩
    obtain ⟨order, hord, hst, _, _⟩ := cancelOrder_ok_spec db oid reason db' o' h
    exact ⟨order, hord, hst⟩
  · rintro ⟨o, hord, hst⟩
    unfold cancelOrder
    simp only [hord]
    rw [if_neg (by simp [hst])]
    exact ⟨_, rfl⟩

theorem cancelOrder_WF (db : Db) (oid : Nat) (reason : Option String)
    (db' : Db) (o' : Order) (hwf : WF db) (h : cancelOrder db oid reason = .ok (db', o')) :
    WF db' := by
  obtain ⟨order, hord, hst, ho', hdb'⟩ := cancelOrder_ok_spec db oid reason db' o' h
  refine WF_of_skeleton db db' ?_ ?_ ?_ ?_ ?_ ?_ hwf
  · rw [hdb']
    rw [orders_map_key_updateOrder]
    exact fun x => rfl
  · rw [hdb']
    rfl
  · rw [hdb']
    rfl
  · rw [hdb']
    rfl
  · rw [hdb']
    rfl
  · rw [hdb']
    exact hwf.2.2.2.2.1

/-! ## The stored statuses agree with the spec's pure status functions -/

theorem recvUpdLine_status (now : Nat) (qty : Int) (notes : Option String)
    (oi it : OrderItem) : (recvUpdLine now qty notes oi it).status = recvItemStatus oi qty := rfl

theorem recvUpdLine_recv (now : Nat) (qty : Int) (notes : Option String)
    (oi it : OrderItem) :
    (recvUpdLine now qty notes oi it).quantityReceived = newTotalOf oi qty := rfl

theorem recvUpdLine_ordered (now : Nat) (qty : Int) (notes : Option String)
    (oi it : OrderItem) :
    (recvUpdLine now qty notes oi it).quantityOrdered = it.quantityOrdered := rfl

theorem recvItemStatus_eq (orderItem : OrderItem) (qty : Int) :
    (newTotalOf orderItem qty = orderItem.quantityOrdered
      ∧ recvItemStatus orderItem qty = "completed")
    ∨ (newTotalOf orderItem qty ≠ orderItem.quantityOrdered
      ∧ 0 < newTotalOf orderItem qty ∧ recvItemStatus orderItem qty = "partial")
    ∨ (newTotalOf orderItem qty ≠ orderItem.quantityOrdered
      ∧ newTotalOf orderItem qty ≤ 0 ∧ recvItemStatus orderItem qty = "pending") := by
  unfold recvItemStatus
  by_cases h1 : (newTotalOf orderItem qty == orderItem.quantityOrdered) = true
  · left
    exact ⟨by simpa using h1, by simp [h1]⟩
  · right
    by_cases h2 : 0 < newTotalOf orderItem qty
    · left
      exact ⟨by simpa using h1, h2, by simp [h1, h2]⟩
    · right
      exact ⟨by simpa using h1, by omega, by simp [h1, h2]⟩

/-- The line status written by a successful partial reception satisfies the
spec's quantity characterization (the hypotheses hold on every successful
call from a well-formed state). -/
theorem recvUpdLine_matches (now : Nat) (qty : Int) (notes : Option String)
    (orderItem : OrderItem) (hq : 0 < qty) (h0 : 0 ≤ orderItem.quantityReceived)
    (hle : newTotalOf orderItem qty ≤ orderItem.quantityOrdered) :
    LineStatusMatchesQuantities (recvUpdLine now qty notes orderItem orderItem) := by
  have hpos : 0 < newTotalOf orderItem qty := by unfold newTotalOf; omega
  have hle' : newTotalOf orderItem qty ≤ orderItem.quantityOrdered := hle
  unfold LineStatusMatchesQuantities
  rw [recvUpdLine_status, recvUpdLine_recv, recvUpdLine_ordered]
  rcases recvItemStatus_eq orderItem qty with ⟨he, hst⟩ | ⟨hne, h2, hst⟩ | ⟨hne, h2, hst⟩
  · rw [hst]
    refine ⟨iff_of_true rfl he, ?_, ?_⟩
    · exact iff_of_false (by decide) (by omega)
    · exact iff_of_false (by decide) (by omega)
  · rw [hst]
    refine ⟨iff_of_false (by decide) hne, ?_, ?_⟩
    · exact iff_of_true rfl ⟨h2, by omega⟩
    · exact iff_of_false (by decide) (by omega)
  · omega

theorem recvOrderStatus_matches (lines : List OrderItem) (hne : lines ≠ []) :
    OrderStatusMatchesLines (recvOrderStatus lines) lines := by
  by_cases h1 : ((lines.filter (fun it => it.status == "completed")).length == lines.length) = true
  · have hall : ∀ it ∈ lines, it.status = "completed" := by
      have hl := (length_filter_eq_iff (fun it => it.status == "completed") lines).mp
        (by simpa using h1)
      intro it hit
      simpa using hl it hit
    have hsv : recvOrderStatus lines = "completed" := by
      unfold recvOrderStatus
      rw [if_pos h1]
    unfold OrderStatusMatchesLines
    rw [hsv]
    refine ⟨iff_of_true rfl hall, ?_, ?_⟩
    · refine iff_of_false (by decide) ?_
      rintro ⟨_, hno⟩
      exact hno hall
    · refine iff_of_false (by decide) ?_
      intro hforall
      obtain ⟨it, hit⟩ := List.exists_mem_of_ne_nil lines hne
      exact (hforall it hit).2 (hall it hit)
  · have hnall : ¬ ∀ it ∈ lines, it.status = "completed" := by
      intro hforall
      apply h1
      simp only [beq_iff_eq]
      exact (length_filter_eq_iff (fun it => it.status == "completed") lines).mpr
        (fun it hit => by simpa using hforall it hit)
    by_cases h2 : (decide (0 < (lines.filter (fun it => it.status == "completed")).length)
        || decide (0 < (lines.filter (fun it => it.status == "partial")).length)) = true
    · have hex : ∃ it ∈ lines, it.status = "partial" ∨ it.status = "completed" := by
        rcases Bool.or_eq_true_iff.mp h2 with hch | hch
        · obtain ⟨it, hit, hits⟩ := (length_filter_pos_iff _ lines).mp (of_decide_eq_true hch)
          exact ⟨it, hit, Or.inr (by simpa using hits)⟩
        · obtain ⟨it, hit, hits⟩ := (length_filter_pos_iff _ lines).mp (of_decide_eq_true hch)
          exact ⟨it, hit, Or.inl (by simpa using hits)⟩
      have hsv : recvOrderStatus lines = "partial" := by
        unfold recvOrderStatus
        rw [if_neg h1, if_pos h2]
      unfold OrderStatusMatchesLines
      rw [hsv]
      refine ⟨iff_of_false (by decide) hnall, iff_of_true rfl ⟨hex, hnall⟩, ?_⟩
      refine iff_of_false (by decide) ?_
      intro hforall
      obtain ⟨it, hit, hdisj⟩ := hex
      rcases hdisj with hs | hs
      · exact (hforall it hit).1 hs
      · exact (hforall it hit).2 hs
    · have hnoc : ∀ it ∈ lines, ¬ it.status = "completed" := by
        intro it hit hs
        apply h2
        refine Bool.or_eq_true_iff.mpr (Or.inl (decide_eq_true ?_))
        exact (length_filter_pos_iff _ lines).mpr ⟨it, hit, by simpa using hs⟩
      have hnop : ∀ it ∈ lines, ¬ it.status = "partial" := by
        intro it hit hs
        apply h2
        refine Bool.or_eq_true_iff.mpr (Or.inr (decide_eq_true ?_))
        exact (length_filter_pos_iff _ lines).mpr ⟨it, hit, by simpa using hs⟩
      have hsv : recvOrderStatus lines = "pending" := by
        unfold recvOrderStatus
        rw [if_neg h1, if_neg h2]
      unfold OrderStatusMatchesLines
      rw [hsv]
      refine ⟨iff_of_false (by decide) hnall, ?_, ?_⟩
      · refine iff_of_false (by decide) ?_
        rintro ⟨⟨it, hit, hdisj⟩, _⟩
        rcases hdisj with hs | hs
        · exact hnop it hit hs
        · exact hnoc it hit hs
      · exact iff_of_true rfl (fun it hit => ⟨hnop it hit, hnoc it hit⟩)

/-! ## Reachable states are well-formed -/

theorem Reachable_WF : ∀ db, Reachable db → WF db := by
  intro db h
  induction h with
  | init db h1 h2 h3 =>
    refine ⟨?_, ?_, h3, ?_, ?_, ?_, ?_, ?_, ?_⟩ <;> simp [h1, h2]
  | create db year now userId req r _ hok ih =>
    exact createOrder_WF db year now userId req r.1 r.2.1 r.2.2 ih hok
  | confirm db now oid notes r _ hok ih =>
    exact confirmOrder_WF db now oid notes r.1 r.2.1 r.2.2 ih hok
  | receive db now oid iid qty notes r _ hok ih =>
    exact receiveOrderItem_WF db now oid iid qty notes r.1 r.2.1 r.2.2.1 r.2.2.2 ih hok
  | cancel db oid reason r _ hok ih =>
    exact cancelOrder_WF db oid reason r.1 r.2 ih hok

theorem receiveApply_orderItems (db : Db) (now oid iid : Nat) (qty : Int)
    (notes : Option String) (orderItem : OrderItem) (inventoryItem : InventoryItem)
    (order : Order) :
    (receiveApply db now oid iid qty notes orderItem inventoryItem order).1.orderItems
      = db.orderItems.map (fun it =>
          if it.id == iid then recvUpdLine now qty notes orderItem it else it) := rfl

theorem buildItems_pq :
    ∀ (vs : List VItem) (s oid : Nat),
      (buildItems s oid vs).map (fun b => (b.priceAtTime, b.quantityOrdered))
        = vs.map (fun v => (v.priceAtTime, v.quantityOrdered)) := by
  intro vs
  induction vs with
  | nil => intro s oid; rfl
  | cons v rest ih => intro s oid; simp [buildItems, ih]

/-! ## Order numbering: decimal digits, lexicographic order, and the
sequence parse (for claim C8) -/

/-- `Nat.toDigitsCore` only ever appends to its accumulator. -/
theorem toDigitsCore_append (b : Nat) :
    ∀ (fuel n : Nat) (ds : List Char),
      Nat.toDigitsCore b fuel n ds = Nat.toDigitsCore b fuel n [] ++ ds := by
  intro fuel
  induction fuel with
  | zero => intro n ds; rfl
  | succ f ih =>
    intro n ds
    simp only [Nat.toDigitsCore]
    by_cases h : n / b = 0
    · simp [h]
    · rw [if_neg h, if_neg h, ih (n / b) ((n % b).digitChar :: ds),
        ih (n / b) [(n % b).digitChar]]
      simp

/-- `Nat.toDigitsCore` is fuel-invariant once the fuel exceeds the input. -/
theorem toDigitsCore_fuel (b : Nat) (hb : 2 ≤ b) :
    ∀ (n fuel fuel' : Nat), n < fuel → n < fuel' →
      Nat.toDigitsCore b fuel n [] = Nat.toDigitsCore b fuel' n [] := by
  intro n
  induction n using Nat.strong_induction_on with
  | _ n ih =>
    intro fuel fuel' hf hf'
    cases fuel with
    | zero => omega
    | succ f =>
      cases fuel' with
      | zero => omega
      | succ f' =>
        simp only [Nat.toDigitsCore]
        by_cases h : n / b = 0
        · simp [h]
        · rw [if_neg h, if_neg h,
            toDigitsCore_append b f (n / b), toDigitsCore_append b f' (n / b)]
          have hn : 1 ≤ n := by
            by_contra hn
            have h0 : n = 0 := by omega
            subst h0
            exact h (Nat.zero_div b)
          have hlt : n / b < n := Nat.div_lt_self (by omega) (by omega)
          rw [ih (n / b) hlt f f' (by omega) (by omega)]

/-- Base case of the decimal expansion: a single digit. -/
theorem toDigits10_small (n : Nat) (h : n < 10) :
    Nat.toDigits 10 n = [Nat.digitChar n] := by
  unfold Nat.toDigits
  simp only [Nat.toDigitsCore]
  have h1 : n / 10 = 0 := Nat.div_eq_of_lt h
  have h2 : n % 10 = n := Nat.mod_eq_of_lt h
  simp [h1, h2]

/-- Unfolding step of the decimal expansion for numbers of two or more
digits. -/
theorem toDigits10_step (n : Nat) (h : 10 ≤ n) :
    Nat.toDigits 10 n = Nat.toDigits 10 (n / 10) ++ [Nat.digitChar (n % 10)] := by
  unfold Nat.toDigits
  simp only [Nat.toDigitsCore]
  have h0 : ¬ n / 10 = 0 := by omega
  rw [if_neg h0, toDigitsCore_append 10 n (n / 10)]
  congr 1
  exact toDigitsCore_fuel 10 (by omega) (n / 10) n (n / 10 + 1) (by omega) (by omega)

/-- Numbers below 1000 print with at most three digits. -/
theorem toDigits10_length_le (n : Nat) (h : n < 1000) :
    (Nat.toDigits 10 n).length ≤ 3 := by
  by_cases h1 : n < 10
  · rw [toDigits10_small n h1]; simp
  · rw [toDigits10_step n (by omega)]
    by_cases h2 : n / 10 < 10
    · rw [toDigits10_small _ h2]; simp
    · rw [toDigits10_step (n / 10) (by omega)]
      have h3 : n / 10 / 10 < 10 := by omega
      rw [toDigits10_small _ h3]
      simp

/-- The character of a decimal digit is a digit character. -/
theorem digitChar_isDigit (d : Nat) (h : d < 10) :
    (Nat.digitChar d).isDigit = true := by
  interval_cases d <;> decide

/-- Code point of the character of a decimal digit. -/
theorem digitChar_toNat (d : Nat) (h : d < 10) :
    (Nat.digitChar d).toNat = 48 + d := by
  interval_cases d <;> decide

/-- The character of a decimal digit is not a dash. -/
theorem digitChar_ne_dash (d : Nat) (h : d < 10) : Nat.digitChar d ≠ '-' := by
  interval_cases d <;> decide

/-- Every character of a printed number is a digit and not a dash. -/
theorem toDigits10_digits (n : Nat) :
    ∀ c ∈ Nat.toDigits 10 n, c.isDigit = true ∧ c ≠ '-' := by
  induction n using Nat.strong_induction_on with
  | _ n ih =>
    by_cases h : n < 10
    · rw [toDigits10_small n h]
      intro c hc
      rw [List.mem_singleton] at hc
      subst hc
      exact ⟨digitChar_isDigit n h, digitChar_ne_dash n h⟩
    · rw [toDigits10_step n (by omega)]
      intro c hc
      rcases List.mem_append.mp hc with hc1 | hc2
      · exact ih (n / 10) (Nat.div_lt_self (by omega) (by omega)) c hc1
      · rw [List.mem_singleton] at hc2
        subst hc2
        exact ⟨digitChar_isDigit _ (Nat.mod_lt n (by omega)),
          digitChar_ne_dash _ (Nat.mod_lt n (by omega))⟩

/-- A printed number is never the empty string. -/
theorem toDigits10_ne_nil (n : Nat) : Nat.toDigits 10 n ≠ [] := by
  by_cases h : n < 10
  · rw [toDigits10_small n h]; simp
  · rw [toDigits10_step n (by omega)]; simp

/-- Appending one digit multiplies the parsed value by ten. -/
theorem digitsToNat_append (cs : List Char) (c : Char) :
    digitsToNat (cs ++ [c]) = 10 * digitsToNat cs + (c.toNat - 48) := by
  unfold digitsToNat
  rw [List.foldl_append]
  simp [Nat.mul_comm]

/-- `digitsToNat` is a left inverse of the decimal printer. -/
theorem digitsToNat_toDigits10 (n : Nat) :
    digitsToNat (Nat.toDigits 10 n) = n := by
  induction n using Nat.strong_induction_on with
  | _ n ih =>
    by_cases h : n < 10
    · rw [toDigits10_small n h]
      unfold digitsToNat
      simp [digitChar_toNat n h]
    · rw [toDigits10_step n (by omega), digitsToNat_append,
        ih (n / 10) (Nat.div_lt_self (by omega) (by omega)),
        digitChar_toNat (n % 10) (Nat.mod_lt n (by omega))]
      omega

/-- The characters of `Nat.repr` are the decimal expansion. -/
theorem repr_data (n : Nat) : (Nat.repr n).data = Nat.toDigits 10 n := rfl

/-- Parsing back the decimal print of a number recovers the number. -/
theorem digitsToNat_repr (n : Nat) : digitsToNat (Nat.repr n).data = n := by
  rw [repr_data]; exact digitsToNat_toDigits10 n

/-- Two numbers with the same decimal print are equal. -/
theorem repr_injective (m n : Nat) (h : Nat.repr m = Nat.repr n) : m = n := by
  have h2 := congrArg (fun s => digitsToNat s.data) h
  simpa [digitsToNat_repr] using h2

/-- Different years give different `ORD-<year>-` prefixes. -/
theorem yearPfx_injective (y1 y2 : Nat) (h : yearPfx y1 = yearPfx y2) :
    y1 = y2 := by
  unfold yearPfx at h
  have hd := congrArg String.data h
  simp only [String.data_append] at hd
  have h1 := List.append_cancel_right hd
  have h2 := List.append_cancel_left h1
  have e1 := digitsToNat_toDigits10 y1
  have e2 := digitsToNat_toDigits10 y2
  rw [← repr_data] at e1 e2
  rw [h2] at e1
  omega

/-- The length of a string is the length of its character list. -/
theorem string_length_data (s : String) : s.length = s.data.length := rfl

/-- Characters of a padded string: leading zeros followed by the original
characters. -/
theorem padStart3_data (s : String) :
    (padStart3 s).data = List.replicate (3 - s.length) '0' ++ s.data := by
  unfold padStart3
  by_cases h : s.length < 3
  · rw [if_pos h]
    rfl
  · rw [if_neg h]
    have h0 : 3 - s.length = 0 := by omega
    rw [h0]
    simp

/-- A zero-padded printed number is nonempty, all digits, dash-free, and
parses back to the number (padding zeros do not change the value). -/
theorem padStart3_digits (k : Nat) :
    (padStart3 (Nat.repr k)).data ≠ [] ∧
    (∀ c ∈ (padStart3 (Nat.repr k)).data, c.isDigit = true ∧ c ≠ '-') ∧
    digitsToNat (padStart3 (Nat.repr k)).data = k := by
  rw [padStart3_data, repr_data]
  refine ⟨by simp [toDigits10_ne_nil], ?_, ?_⟩
  · intro c hc
    rcases List.mem_append.mp hc with hc1 | hc2
    · have hc0 := List.eq_of_mem_replicate hc1
      subst hc0
      exact ⟨by decide, by decide⟩
    · exact toDigits10_digits k c hc2
  · have hz : ∀ m, List.foldl (fun n c => n * 10 + (c.toNat - 48)) 0
        (List.replicate m '0') = 0 := by
      intro m
      induction m with
      | zero => rfl
      | succ mm ih => simpa [List.replicate_succ] using ih
    unfold digitsToNat
    rw [List.foldl_append, hz]
    exact digitsToNat_toDigits10 k

/-- Padding a printed number up to 999 yields exactly three characters. -/
theorem padStart3_length (k : Nat) (hk : k ≤ 999) :
    (padStart3 (Nat.repr k)).data.length = 3 := by
  rw [padStart3_data]
  have hle : (Nat.repr k).length ≤ 3 := by
    rw [string_length_data, repr_data]
    exact toDigits10_length_le k (by omega)
  have hdl : (Nat.repr k).data.length = (Nat.repr k).length := rfl
  simp only [List.length_append, List.length_replicate, hdl]
  omega

/-- Splitting a dash-free group produces that single group. -/
theorem splitDash_no_dash (g : List Char) (hg : ∀ c ∈ g, c ≠ '-') :
    splitDash g = [g] := by
  induction g with
  | nil => rfl
  | cons c cs ih =>
    have hc : ¬ c = '-' := hg c (List.mem_cons_self c cs)
    simp only [splitDash, if_neg hc]
    rw [ih (fun x hx => hg x (List.mem_cons_of_mem c hx))]

/-- Splitting a dash-free group followed by a dash peels off that group. -/
theorem splitDash_append_dash (g rest : List Char) (hg : ∀ c ∈ g, c ≠ '-') :
    splitDash (g ++ '-' :: rest) = g :: splitDash rest := by
  induction g with
  | nil =>
    show splitDash ('-' :: rest) = [] :: splitDash rest
    simp [splitDash]
  | cons c cs ih =>
    have hc : ¬ c = '-' := hg c (List.mem_cons_self c cs)
    show splitDash (c :: (cs ++ '-' :: rest)) = (c :: cs) :: splitDash rest
    simp only [splitDash, if_neg hc]
    rw [ih (fun x hx => hg x (List.mem_cons_of_mem c hx))]

/-- The characters of `ORD-<year>-<suffix>`, regrouped around the dashes. -/
theorem yearPfx_data (year : Nat) (s : String) :
    (yearPfx year ++ s).data
      = ['O', 'R', 'D'] ++ '-' :: ((Nat.repr year).data ++ '-' :: s.data) := by
  show (("ORD-" ++ Nat.repr year ++ "-") ++ s).data = _
  simp only [String.data_append]
  show (('O' :: 'R' :: 'D' :: '-' :: []) ++ (Nat.repr year).data)
      ++ ('-' :: []) ++ s.data = _
  simp [List.append_assoc]

/-- Parsing the sequence part of a well-formed `ORD-<year>-<pad k>` number
recovers `k`. -/
theorem parseSeq_pfx (year k : Nat) :
    parseSeq (yearPfx year ++ padStart3 (Nat.repr k)) = k := by
  obtain ⟨hne, hdig, hval⟩ := padStart3_digits k
  unfold parseSeq
  rw [yearPfx_data]
  rw [splitDash_append_dash ['O', 'R', 'D'] _ (by decide)]
  rw [splitDash_append_dash ((Nat.repr year).data) _
    (fun c hc => ((toDigits10_digits year c (by rwa [repr_data] at hc)).2))]
  rw [splitDash_no_dash _ (fun c hc => (hdig c hc).2)]
  show (parseIntDigits? (padStart3 (Nat.repr k)).data).getD 0 = k
  unfold parseIntDigits?
  have h1 : (padStart3 (Nat.repr k)).data.isEmpty = false := by
    cases h : (padStart3 (Nat.repr k)).data with
    | nil => exact absurd h hne
    | cons a l => rfl
  have h2 : (padStart3 (Nat.repr k)).data.all Char.isDigit = true := by
    rw [List.all_eq_true]
    exact fun c hc => (hdig c hc).1
  rw [h1, h2]
  simpa using hval

/-- Code-point bounds of a digit character. -/
theorem char_digit_bounds (c : Char) (h : c.isDigit = true) :
    48 ≤ c.toNat ∧ c.toNat ≤ 57 := by
  unfold Char.isDigit at h
  simp only [Bool.and_eq_true, decide_eq_true_eq] at h
  exact ⟨h.1, h.2⟩

/-- Character order is code-point order. -/
theorem char_lt_iff (a b : Char) : a < b ↔ a.toNat < b.toNat := Iff.rfl

/-- Characters with equal code points are equal. -/
theorem char_toNat_inj (a b : Char) (h : a.toNat = b.toNat) : a = b := by
  apply Char.ext
  unfold Char.toNat at h
  exact UInt32.ext h

/-- Head/tail characterization of the lexicographic order on character
lists (the order SQLite's BINARY collation gives `orderBy desc`). -/
theorem cons_lt_cons_iff (a b : Char) (as bs : List Char) :
    (a :: as) < (b :: bs) ↔
      (a.toNat < b.toNat ∨ (a.toNat = b.toNat ∧ as < bs)) := by
  show List.Lex (· < ·) (a :: as) (b :: bs) ↔ _
  constructor
  · intro h
    cases h with
    | cons h1 => exact Or.inr ⟨rfl, h1⟩
    | rel h1 => exact Or.inl ((char_lt_iff a b).mp h1)
  · intro h
    rcases h with h1 | ⟨h1, h2⟩
    · exact List.Lex.rel ((char_lt_iff a b).mpr h1)
    · have e : a = b := char_toNat_inj a b h1
      subst e
      exact List.Lex.cons h2

/-- Nothing is lexicographically below the empty list. -/
theorem list_lt_nil (l : List Char) : ¬ (l < ([] : List Char)) :=
  List.Lex.not_nil_right _ l

/-- A common prefix cancels in the lexicographic order. -/
theorem append_lt_append_iff (xs : List Char) :
    ∀ as bs : List Char, (xs ++ as) < (xs ++ bs) ↔ as < bs := by
  induction xs with
  | nil => intro as bs; exact Iff.rfl
  | cons c cs ih =>
    intro as bs
    simp only [List.cons_append]
    rw [cons_lt_cons_iff, ih]
    simp

/-- On equal-length all-digit strings (here: length three), lexicographic
order agrees with numeric order of the parsed values. -/
theorem three_digit_lt_iff (a2 a1 a0 b2 b1 b0 : Char)
    (ha2 : a2.isDigit = true) (ha1 : a1.isDigit = true) (ha0 : a0.isDigit = true)
    (hb2 : b2.isDigit = true) (hb1 : b1.isDigit = true) (hb0 : b0.isDigit = true) :
    ([a2, a1, a0] : List Char) < [b2, b1, b0] ↔
      digitsToNat [a2, a1, a0] < digitsToNat [b2, b1, b0] := by
  have n2 := char_digit_bounds a2 ha2
  have n1 := char_digit_bounds a1 ha1
  have n0 := char_digit_bounds a0 ha0
  have m2 := char_digit_bounds b2 hb2
  have m1 := char_digit_bounds b1 hb1
  have m0 := char_digit_bounds b0 hb0
  have hnil : (([] : List Char) < ([] : List Char)) ↔ False :=
    iff_of_false (list_lt_nil []) id
  rw [cons_lt_cons_iff, cons_lt_cons_iff, cons_lt_cons_iff, hnil]
  unfold digitsToNat
  simp only [List.foldl_cons, List.foldl_nil]
  constructor
  · intro h
    rcases h with h | ⟨e2, h⟩
    · omega
    rcases h with h | ⟨e1, h⟩
    · omega
    rcases h with h | ⟨e0, hf⟩
    · omega
    · exact hf.elim
  · intro h
    rcases Nat.lt_trichotomy a2.toNat b2.toNat with hc2 | hc2 | hc2
    · exact Or.inl hc2
    · refine Or.inr ⟨hc2, ?_⟩
      rcases Nat.lt_trichotomy a1.toNat b1.toNat with hc1 | hc1 | hc1
      · exact Or.inl hc1
      · refine Or.inr ⟨hc1, ?_⟩
        exact Or.inl (by omega)
      · exact absurd h (by omega)
    · exact absurd h (by omega)

/-- For sequences up to 999, comparing two well-formed order numbers of the
same year lexicographically compares their sequence numbers numerically. -/
theorem pfx_pad_lt_iff (year a b : Nat) (ha9 : a ≤ 999) (hb9 : b ≤ 999) :
    ((yearPfx year ++ padStart3 (Nat.repr a))
      < (yearPfx year ++ padStart3 (Nat.repr b))) ↔ a < b := by
  rw [String.lt_iff_toList_lt]
  show (yearPfx year ++ padStart3 (Nat.repr a)).data
      < (yearPfx year ++ padStart3 (Nat.repr b)).data ↔ a < b
  rw [String.data_append, String.data_append, append_lt_append_iff]
  obtain ⟨pa2, pa1, pa0, hpa⟩ := List.length_eq_three.mp (padStart3_length a ha9)
  obtain ⟨pb2, pb1, pb0, hpb⟩ := List.length_eq_three.mp (padStart3_length b hb9)
  obtain ⟨hneA, hdA, hvA⟩ := padStart3_digits a
  obtain ⟨hneB, hdB, hvB⟩ := padStart3_digits b
  rw [hpa] at hdA hvA
  rw [hpb] at hdB hvB
  rw [hpa, hpb,
    three_digit_lt_iff pa2 pa1 pa0 pb2 pb1 pb0
      (hdA pa2 (by simp)).1 (hdA pa1 (by simp)).1 (hdA pa0 (by simp)).1
      (hdB pb2 (by simp)).1 (hdB pb1 (by simp)).1 (hdB pb0 (by simp)).1,
    hvA, hvB]

/-- Characterization of the `orderBy desc` row: on a list of well-formed
same-year order numbers with sequences in 1..999, `lexMax?` returns a
member whose sequence is the maximum of all parsed sequences. -/
theorem lexMax?_spec (year : Nat) :
    ∀ (l : List String),
      (∀ s ∈ l, ∃ k, 1 ≤ k ∧ k ≤ 999 ∧ s = yearPfx year ++ padStart3 (Nat.repr k)) →
      (l = [] ∧ lexMax? l = none) ∨
      (∃ m km, lexMax? l = some m ∧ m ∈ l ∧ 1 ≤ km ∧ km ≤ 999 ∧
        m = yearPfx year ++ padStart3 (Nat.repr km) ∧
        km = (l.map parseSeq).foldr max 0 ∧
        ∀ s ∈ l, parseSeq s ≤ km) := by
  intro l
  induction l with
  | nil => intro _; exact Or.inl ⟨rfl, rfl⟩
  | cons s rest ih =>
    intro H
    obtain ⟨ks, hks1, hks9, hs⟩ := H s (List.mem_cons_self s rest)
    have hps : parseSeq s = ks := by rw [hs]; exact parseSeq_pfx year ks
    rcases ih (fun x hx => H x (List.mem_cons_of_mem s hx)) with
      ⟨hnil, hnone⟩ | ⟨m, km, hm, hmmem, hk1, hk9, hmeq, hkmax, hble⟩
    · subst hnil
      right
      refine ⟨s, ks, ?_, List.mem_cons_self s [], hks1, hks9, hs, ?_, ?_⟩
      · show lexMax? [s] = some s
        rfl
      · simp [hps]
      · intro x hx
        rw [List.mem_singleton] at hx
        subst hx
        omega
    · right
      have hcomp : (s < m) ↔ ks < km := by
        rw [hs, hmeq]
        exact pfx_pad_lt_iff year ks km hks9 hk9
      have hlex : lexMax? (s :: rest) = some (if s < m then m else s) := by
        show (match lexMax? rest with
          | none => some s
          | some t => some (if s < t then t else s)) = _
        rw [hm]
      by_cases hlt : s < m
      · refine ⟨m, km, ?_, List.mem_cons_of_mem s hmmem, hk1, hk9, hmeq, ?_, ?_⟩
        · rw [hlex, if_pos hlt]
        · have hkr : km = (rest.map parseSeq).foldr max 0 := hkmax
          simp only [List.map_cons, List.foldr_cons, ← hkr, hps]
          have hlt2 : ks < km := hcomp.mp hlt
          omega
        · intro x hx
          have hlt2 := hcomp.mp hlt
          rcases List.mem_cons.mp hx with rfl | hx2
          · rw [hps]; omega
          · have hx3 := hble x hx2
            omega
      · have hge : km ≤ ks := by
          have hc2 := hcomp.not.mp hlt
          omega
        refine ⟨s, ks, ?_, List.mem_cons_self s rest, hks1, hks9, hs, ?_, ?_⟩
        · rw [hlex, if_neg hlt]
        · have hkr : km = (rest.map parseSeq).foldr max 0 := hkmax
          simp only [List.map_cons, List.foldr_cons, ← hkr, hps]
          omega
        · intro x hx
          rcases List.mem_cons.mp hx with rfl | hx2
          · rw [hps]
          · have hx3 := hble x hx2
            omega

/-- A character list is a prefix of itself extended by anything. -/
theorem isPrefixOf_append_self (xs ys : List Char) :
    xs.isPrefixOf (xs ++ ys) = true := by
  rw [ List.isPrefixOf_iff_prefix]
  exact List.prefix_append xs ys

/-- A string starts with any string it extends. -/
theorem strStartsWith_append (p s : String) : strStartsWith (p ++ s) p = true := by
  unfold strStartsWith
  rw [String.data_append]
  exact isPrefixOf_append_self p.data s.data

/-! # Claim theorems -/

/-- C1: For every order line, in every state reachable via the ledger
operations (order creation, full confirmation, partial reception,
cancellation), `0 ≤ quantityReceived ≤ quantityOrdered` holds. -/
theorem claim_C1 (db : Db) (h : Reachable db) :
    ∀ it ∈ db.orderItems,
      0 ≤ it.quantityReceived ∧ it.quantityReceived ≤ it.quantityOrdered :=
  (Reachable_WF db h).2.2.2.2.1

/-- C2: After every successful partial-reception call, the updated line's
status is the pure function of its quantities (completed iff
`quantityReceived = quantityOrdered`, partial iff
`0 < quantityReceived < quantityOrdered`, pending iff
`quantityReceived = 0`), and the returned order's recomputed status is the
pure function of the statuses of the lines of that order in the updated
database (completed iff all completed; partial iff some partial or
completed but not all completed; otherwise pending).  The nonnegativity
hypothesis is the part of the reachable-state invariant the status
characterization depends on. -/
theorem claim_C2 (db : Db) (now oid iid : Nat) (qty : Int) (notes : Option String)
    (db' : Db) (item' : OrderItem) (order' : Order) (su : StockUpdate)
    (hrec : ∀ it ∈ db.orderItems, 0 ≤ it.quantityReceived)
    (h : receiveOrderItem db now oid iid qty notes = .ok (db', item', order', su)) :
    LineStatusMatchesQuantities item' ∧
    OrderStatusMatchesLines order'.status
      (db'.orderItems.filter (fun it => it.orderId == oid)) := by
  obtain ⟨orderItem, inventoryItem, order, hq, hfind, hp, ho, hnc, hle, heq⟩ :=
    receiveOrderItem_ok_spec db now oid iid qty notes db' item' order' su h
  have hmem : orderItem ∈ db.orderItems := List.mem_of_find?_eq_some hfind
  have hpred := List.find?_some hfind
  simp only [Bool.and_eq_true, beq_iff_eq] at hpred
  have hdb' : db' = (receiveApply db now oid iid qty notes orderItem inventoryItem order).1 :=
    congrArg Prod.fst heq
  have hitem' : item' = recvUpdLine now qty notes orderItem orderItem :=
    congrArg (fun t => t.2.1) heq
  have horder' : order' = (receiveApply db now oid iid qty notes orderItem inventoryItem order).2.2.1 :=
    congrArg (fun t => t.2.2.1) heq
  constructor
  · rw [hitem']
    exact recvUpdLine_matches now qty notes orderItem hq (hrec orderItem hmem) hle
  · have hlines : order'.status
        = recvOrderStatus (db'.orderItems.filter (fun it => it.orderId == oid)) := by
      rw [horder', hdb']
      exact receiveApply_order_status db now oid iid qty notes orderItem inventoryItem order
    rw [hlines]
    apply recvOrderStatus_matches
    have hupd : recvUpdLine now qty notes orderItem orderItem
        ∈ db'.orderItems.filter (fun it => it.orderId == oid) := by
      rw [hdb', receiveApply_orderItems]
      refine List.mem_filter.mpr ⟨?_, ?_⟩
      · have : (fun it => if it.id == iid then recvUpdLine now qty notes orderItem it else it)
            orderItem = recvUpdLine now qty notes orderItem orderItem := by
          simp [hpred.2]
        rw [← this]
        exact List.mem_map_of_mem _ hmem
      · show ((recvUpdLine now qty notes orderItem orderItem).orderId == oid) = true
        have : (recvUpdLine now qty notes orderItem orderItem).orderId = orderItem.orderId := rfl
        rw [this]
        simp [hpred.1]
    exact List.ne_nil_of_mem hupd

/-- C3: Full confirmation succeeds iff the order exists with status pending
or partial; on success, every line with positive pending quantity has the
referenced product's stock incremented by exactly that pending quantity and
is set to fully received with status completed, every line with zero
pending quantity is left untouched and reported with a zero delta, and the
order's status becomes completed. -/
theorem claim_C3 (db : Db) (now oid : Nat) (notes : Option String) (hwf : WF db) :
    ((∃ r, confirmOrder db now oid notes = .ok r) ↔
      ∃ o, getOrder? db oid = some o ∧ (o.status = "pending" ∨ o.status = "partial")) ∧
    (∀ db' o' us, confirmOrder db now oid notes = .ok (db', o', us) →
      o'.status = "completed" ∧ getOrder? db' oid = some o' ∧
      (∀ it ∈ db.orderItems, it.orderId = oid →
        (0 < it.quantityOrdered - it.quantityReceived →
          getItem? db' it.id = some { it with
            quantityReceived := it.quantityOrdered,
            status := "completed", receivedAt := some now } ∧
          ∃ p, getProduct? db it.inventoryItemId = some p ∧
            getProduct? db' it.inventoryItemId
              = some { p with stock := p.stock + (it.quantityOrdered - it.quantityReceived) } ∧
            (⟨it.inventoryItemId, p.nombre, p.stock, it.quantityOrdered - it.quantityReceived,
               p.stock + (it.quantityOrdered - it.quantityReceived)⟩ : StockUpdate) ∈ us) ∧
        (it.quantityOrdered - it.quantityReceived ≤ 0 →
          getItem? db' it.id = some it ∧
          getProduct? db' it.inventoryItemId = getProduct? db it.inventoryItemId ∧
          ∃ p, getProduct? db it.inventoryItemId = some p ∧
            (⟨it.inventoryItemId, p.nombre, p.stock, 0, p.stock⟩ : StockUpdate) ∈ us))) := by
  refine ⟨confirmOrder_ok_iff db now oid notes hwf, ?_⟩
  intro db' o' us h
  obtain ⟨order, hord, hstat, ho', hgo, hper, hother⟩ :=
    confirmOrder_ok_spec db now oid notes db' o' us hwf h
  exact ⟨by rw [ho'], hgo, hper⟩

/-- C4: Partial reception is rejected iff the increment is not positive, or
no line with that id exists under that order, or the order is cancelled, or
the cumulative total would exceed `quantityOrdered` (all validations
precede the first write in the source, so a rejected call leaves the
database untouched); otherwise it succeeds and increments the referenced
product's stock by exactly the increment, leaving every other product's row
unchanged. -/
theorem claim_C4 (db : Db) (now oid iid : Nat) (qty : Int) (notes : Option String)
    (hwf : WF db) :
    ((∃ e, receiveOrderItem db now oid iid qty notes = .error e) ↔
      (qty ≤ 0 ∨ findOrderItem? db oid iid = none ∨
        ∃ it, findOrderItem? db oid iid = some it ∧
          ((∃ o, getOrder? db it.orderId = some o ∧ o.status = "cancelled") ∨
            it.quantityOrdered < it.quantityReceived + qty))) ∧
    (∀ db' item' order' su,
      receiveOrderItem db now oid iid qty notes = .ok (db', item', order', su) →
      ∃ it p, findOrderItem? db oid iid = some it ∧
        getProduct? db it.inventoryItemId = some p ∧
        su = ⟨it.inventoryItemId, p.nombre, p.stock, qty, p.stock + qty⟩ ∧
        getProduct? db' it.inventoryItemId = some { p with stock := p.stock + qty } ∧
        (∀ pid, pid ≠ it.inventoryItemId → getProduct? db' pid = getProduct? db pid)) := by
  refine ⟨receiveOrderItem_error_iff db now oid iid qty notes hwf, ?_⟩
  intro db' item' order' su h
  obtain ⟨orderItem, inventoryItem, order, hq, hfind, hp, ho, hnc, hle, heq⟩ :=
    receiveOrderItem_ok_spec db now oid iid qty notes db' item' order' su h
  have hdb' : db' = (receiveApply db now oid iid qty notes orderItem inventoryItem order).1 :=
    congrArg Prod.fst heq
  have hsu : su = ⟨orderItem.inventoryItemId, inventoryItem.nombre, inventoryItem.stock, qty,
      inventoryItem.stock + qty⟩ :=
    congrArg (fun t => t.2.2.2) heq
  refine ⟨orderItem, inventoryItem, hfind, hp, hsu, ?_, ?_⟩
  · rw [hdb', receiveApply_product, hp]
    rfl
  · intro pid hne
    rw [hdb']
    exact receiveApply_product_ne db now oid iid qty notes orderItem inventoryItem order pid hne

/-- C5: Order creation silently drops every requested line whose quantity
is ≤ 0; each persisted line snapshots `priceAtTime` from the product's
current unit price; `totalItems` is the sum of the surviving quantities and
`totalPrice` the sum of quantity times `priceAtTime`; and a request whose
lines all have nonpositive quantities (with all products present) is
rejected with the "at least one item" error. -/
theorem claim_C5 (db : Db) (year now userId : Nat) (req : CreateReq) :
    (∀ db' o its, createOrder db year now userId req = .ok (db', o, its) →
      its.map (fun b => (b.inventoryItemId, b.quantityOrdered))
        = (req.items.filter (fun i => decide (0 < i.quantityOrdered))).map
            (fun i => (i.inventoryItemId, i.quantityOrdered)) ∧
      (∀ b ∈ its, ∃ p, getProduct? db b.inventoryItemId = some p ∧ b.priceAtTime = p.precio) ∧
      o.totalItems = (its.map (fun b => b.quantityOrdered)).sum ∧
      o.totalPrice = (its.map (fun b => b.priceAtTime * (b.quantityOrdered : Rat))).sum) ∧
    (req.type ≠ "" → req.items ≠ [] →
      (∀ i ∈ req.items, ∃ p ∈ db.inventoryItems, p.id = i.inventoryItemId) →
      (∀ i ∈ req.items, i.quantityOrdered ≤ 0) →
      createOrder db year now userId req
        = .error (.badRequest "El pedido debe tener al menos un item con cantidad mayor a 0")) := by
  constructor
  · intro db' o its h
    obtain ⟨ti, tp, vs, hv, hvne, hnd, ho, hits, hdb'⟩ :=
      createOrder_ok_spec db year now userId req db' o its h
    obtain ⟨hmapiq, hfound, hpos, hti, htp⟩ :=
      validateItems_ok_spec db.inventoryItems req.items ti tp vs hv
    refine ⟨?_, ?_, ?_, ?_⟩
    · rw [hits, buildItems_iq, hmapiq]
    · intro b hb
      rw [hits] at hb
      obtain ⟨_, _, _, _, _, _, _, v, hvv, hiv, _, hpa⟩ :=
        buildItems_fields vs db.nextOrderItemId db.nextOrderId b hb
      obtain ⟨p, hfp, hpid, hppa, hpmem⟩ := hfound v hvv
      refine ⟨p, ?_, by rw [hpa, hppa]⟩
      show db.inventoryItems.find? (fun q => q.id == b.inventoryItemId) = some p
      rw [hiv]
      exact hfp
    · have hoti : o.totalItems = ti := by rw [ho]
      rw [hoti, hti, hits]
      have hqs := congrArg (List.map (fun t : Nat × Int => t.2))
        (buildItems_iq vs db.nextOrderItemId db.nextOrderId)
      have : (buildItems db.nextOrderItemId db.nextOrderId vs).map (fun b => b.quantityOrdered)
          = vs.map (fun v => v.quantityOrdered) := by
        simpa [List.map_map, Function.comp] using hqs
      rw [this]
    · have hotp : o.totalPrice = tp := by rw [ho]
      rw [hotp, htp, hits]
      have hqs := congrArg (List.map (fun t : Rat × Int => t.1 * (t.2 : Rat)))
        (buildItems_pq vs db.nextOrderItemId db.nextOrderId)
      have : (buildItems db.nextOrderItemId db.nextOrderId vs).map
            (fun b => b.priceAtTime * (b.quantityOrdered : Rat))
          = vs.map (fun v => v.priceAtTime * (v.quantityOrdered : Rat)) := by
        simpa [List.map_map, Function.comp] using hqs
      rw [this]
  · intro ht hne hall hneg
    have hg : ¬(req.type == "" || req.items.isEmpty) = true := by
      simp [ht, hne]
    exact createOrder_all_nonpositive db year now userId req hg hall hneg

/-- C6: If any line of a creation request references a product id with no
matching product, the whole request is rejected with an error naming the
(first) offending id; the rejection happens before any write, so nothing is
persisted. -/
theorem claim_C6 (db : Db) (year now userId : Nat) (req : CreateReq) (b : ReqItem)
    (ht : req.type ≠ "")
    (hb : req.items.find? (fun i => (getProduct? db i.inventoryItemId).isNone) = some b) :
    getProduct? db b.inventoryItemId = none ∧
    createOrder db year now userId req
      = .error (.badRequest ("Producto con ID " ++ Nat.repr b.inventoryItemId
          ++ " no encontrado")) := by
  have hne : req.items ≠ [] := by
    intro h0
    rw [h0] at hb
    exact Option.noConfusion hb
  have hg : ¬(req.type == "" || req.items.isEmpty) = true := by simp [ht, hne]
  have hbn := List.find?_some hb
  refine ⟨by simpa using hbn, ?_⟩
  exact createOrder_missing_product db year now userId req b hg hb

/-- C7: Cancellation succeeds iff the order exists with status exactly
pending; on success only the order's status (set to cancelled) and notes
(reason appended) change — product stock and order lines are untouched. -/
theorem claim_C7 (db : Db) (oid : Nat) (reason : Option String) :
    ((∃ r, cancelOrder db oid reason = .ok r) ↔
      ∃ o, getOrder? db oid = some o ∧ o.status = "pending") ∧
    (∀ db' o', cancelOrder db oid reason = .ok (db', o') →
      db'.inventoryItems = db.inventoryItems ∧
      db'.orderItems = db.orderItems ∧
      o'.status = "cancelled" ∧
      getOrder? db' oid = some o' ∧
      ∃ order, getOrder? db oid = some order ∧
        o'.notes = appendNote order.notes "\nCancelado: " reason ∧
        db'.orders = db.orders.map (fun x => if x.id == oid then
          { x with
            status := "cancelled",
            notes := appendNote order.notes "\nCancelado: " reason } else x)) := by
  refine ⟨cancelOrder_ok_iff db oid reason, ?_⟩
  intro db' o' h
  obtain ⟨order, hord, hst, ho', hdb'⟩ := cancelOrder_ok_spec db oid reason db' o' h
  refine ⟨by rw [hdb']; rfl, by rw [hdb']; rfl, by rw [ho'], ?_, order, hord, by rw [ho'],
    by rw [hdb']; rfl⟩
  rw [hdb']
  rw [getOrder?_updateOrder_eq]
  · rw [hord, ho']
    rfl
  · exact fun x => rfl

/-- C8 (counterexample to the claim as stated): the generated sequence is
not always one more than the highest existing sequence. With existing
numbers ORD-2025-999 and ORD-2025-1000, the generator picks the
lexicographically greatest number — ORD-2025-999, since "9" > "1"
pointwise — and produces ORD-2025-1000: sequence 1000 rather than
1 + 1000 = 1001, and a collision with an existing order number. -/
theorem claim_C8_counterexample :
    generateOrderNumber 2025 cexOrders = "ORD-2025-1000" ∧
    parseSeq (generateOrderNumber 2025 cexOrders)
      ≠ 1 + (((cexOrders.map (fun o => o.orderNumber)).filter
          (fun s => strStartsWith s (yearPfx 2025))).map parseSeq).foldr max 0 ∧
    generateOrderNumber 2025 cexOrders ∈ cexOrders.map (fun o => o.orderNumber) := by
  have hnlt : ¬ ("ORD-2025-999" : String) < "ORD-2025-1000" := by
    rw [String.lt_iff_toList_lt]
    intro h
    exact absurd h (by decide)
  have hmax : lexMax? ((cexOrders.map (fun o => o.orderNumber)).filter
      (fun s => strStartsWith s (yearPfx 2025)))
      = some (if ("ORD-2025-999" : String) < "ORD-2025-1000"
          then "ORD-2025-1000" else "ORD-2025-999") := rfl
  rw [if_neg hnlt] at hmax
  have hgen : generateOrderNumber 2025 cexOrders = "ORD-2025-1000" := by
    show (match lexMax? ((cexOrders.map (fun o => o.orderNumber)).filter
        (fun s => strStartsWith s (yearPfx 2025))) with
      | none => yearPfx 2025 ++ padStart3 (Nat.repr 1)
      | some last => yearPfx 2025 ++ padStart3 (Nat.repr (parseSeq last + 1))) = _
    rw [hmax]
    rfl
  refine ⟨hgen, ?_, ?_⟩
  · rw [hgen]
    decide
  · rw [hgen]
    decide

/-- C8 (amended): provided every existing order number with the
`ORD-<year>-` prefix consists of that prefix followed by the three-digit
zero-padded decimal of a sequence in 1..999, the generated number is the
prefix followed by the zero-padded decimal of one more than the highest
existing sequence (with 1 on an empty year), its parsed sequence strictly
exceeds every existing sequence of that year — so numbers generated within
one year strictly increase numerically — it starts with the `ORD-<year>-`
prefix, and different years use different prefixes. -/
theorem claim_C8 (year : Nat) (orders : List Order)
    (H : ∀ s ∈ (orders.map (fun o => o.orderNumber)).filter
          (fun s => strStartsWith s (yearPfx year)),
        ∃ k, 1 ≤ k ∧ k ≤ 999 ∧ s = yearPfx year ++ padStart3 (Nat.repr k)) :
    generateOrderNumber year orders
      = yearPfx year ++ padStart3 (Nat.repr
          ((((orders.map (fun o => o.orderNumber)).filter
              (fun s => strStartsWith s (yearPfx year))).map parseSeq).foldr max 0 + 1)) ∧
    (∀ s ∈ (orders.map (fun o => o.orderNumber)).filter
          (fun s => strStartsWith s (yearPfx year)),
      parseSeq s < parseSeq (generateOrderNumber year orders)) ∧
    strStartsWith (generateOrderNumber year orders) (yearPfx year) = true ∧
    (∀ y2 : Nat, y2 ≠ year → yearPfx y2 ≠ yearPfx year) := by
  rcases lexMax?_spec year
      ((orders.map (fun o => o.orderNumber)).filter
        (fun s => strStartsWith s (yearPfx year))) H with
    ⟨hnil, hnone⟩ | ⟨m, km, hm, hmmem, hk1, hk9, hmeq, hkmax, hble⟩
  · have hgen : generateOrderNumber year orders
        = yearPfx year ++ padStart3 (Nat.repr 1) := by
      show (match lexMax? ((orders.map (fun o => o.orderNumber)).filter
          (fun s => strStartsWith s (yearPfx year))) with
        | none => yearPfx year ++ padStart3 (Nat.repr 1)
        | some last => yearPfx year ++ padStart3 (Nat.repr (parseSeq last + 1))) = _
      rw [hnone]
    refine ⟨?_, ?_, ?_, ?_⟩
    · rw [hgen, hnil]
      rfl
    · intro s hs
      rw [hnil] at hs
      exact absurd hs (List.not_mem_nil s)
    · rw [hgen]
      exact strStartsWith_append (yearPfx year) _
    · intro y2 hy2 hpfx
      exact hy2 (yearPfx_injective y2 year hpfx)
  · have hgen : generateOrderNumber year orders
        = yearPfx year ++ padStart3 (Nat.repr (km + 1)) := by
      show (match lexMax? ((orders.map (fun o => o.orderNumber)).filter
          (fun s => strStartsWith s (yearPfx year))) with
        | none => yearPfx year ++ padStart3 (Nat.repr 1)
        | some last => yearPfx year ++ padStart3 (Nat.repr (parseSeq last + 1))) = _
      rw [hm]
      show yearPfx year ++ padStart3 (Nat.repr (parseSeq m + 1)) = _
      rw [hmeq, parseSeq_pfx]
    have hpgen : parseSeq (generateOrderNumber year orders) = km + 1 := by
      rw [hgen]
      exact parseSeq_pfx year (km + 1)
    refine ⟨?_, ?_, ?_, ?_⟩
    · rw [hgen, ← hkmax]
    · intro s hs
      have hle := hble s hs
      rw [hpgen]
      omega
    · rw [hgen]
      exact strStartsWith_append (yearPfx year) _
    · intro y2 hy2 hpfx
      exact hy2 (yearPfx_injective y2 year hpfx)

/-- C9: No order ever holds two lines for the same product: the UNIQUE
index over `(orderId, inventoryItemId)` holds in every reachable state, and
a creation request listing the same product id in two or more
positive-quantity lines fails as a whole (no order is created). -/
theorem claim_C9 :
    (∀ db : Db, Reachable db →
      (db.orderItems.map (fun it => (it.orderId, it.inventoryItemId))).Nodup) ∧
    (∀ (db : Db) (year now userId : Nat) (req : CreateReq),
      ¬ ((req.items.filter (fun i => decide (0 < i.quantityOrdered))).map
          (fun i => i.inventoryItemId)).Nodup →
      ∃ e, createOrder db year now userId req = .error e) := by
  constructor
  · intro db h
    exact (Reachable_WF db h).2.2.2.1
  · intro db year now userId req hdup
    exact createOrder_duplicate_product db year now userId req hdup

/-- C10: In order creation, product existence is checked before the
quantity filter: a request containing a line whose product id does not
exist is rejected naming an offending id even when that line's requested
quantity is ≤ 0 (the line is not silently dropped first). -/
theorem claim_C10 (db : Db) (year now userId : Nat) (req : CreateReq) (item : ReqItem)
    (ht : req.type ≠ "")
    (hmem : item ∈ req.items)
    (hmiss : getProduct? db item.inventoryItemId = none)
    (_hq : item.quantityOrdered ≤ 0) :
    ∃ b, req.items.find? (fun i => (getProduct? db i.inventoryItemId).isNone) = some b ∧
      getProduct? db b.inventoryItemId = none ∧
      createOrder db year now userId req
        = .error (.badRequest ("Producto con ID " ++ Nat.repr b.inventoryItemId
            ++ " no encontrado")) := by
  have hne : req.items ≠ [] := List.ne_nil_of_mem hmem
  have hg : ¬(req.type == "" || req.items.isEmpty) = true := by simp [ht, hne]
  have hex : (req.items.find? (fun i => (getProduct? db i.inventoryItemId).isNone)).isSome := by
    rw [List.find?_isSome]
    exact ⟨item, hmem, by simp [hmiss]⟩
  obtain ⟨b, hb⟩ := Option.isSome_iff_exists.mp hex
  have hbn := List.find?_some hb
  refine ⟨b, hb, by simpa using hbn, ?_⟩
  exact createOrder_missing_product db year now userId req b hg hb

/-! # Witnesses: the claim theorems applied at concrete inputs -/

/-- Witness for C1: a database reached by an actual creation, whose lines
satisfy the bounds. -/
theorem claim_C1_witness :
    Reachable demoDb1 ∧
    (∀ it ∈ demoDb1.orderItems,
      0 ≤ it.quantityReceived ∧ it.quantityReceived ≤ it.quantityOrdered) :=
  ⟨Reachable.create demoDb0 2025 100 7 demoReq demoCreated
      (Reachable.init demoDb0 rfl rfl (by decide)) rfl,
   claim_C1 demoDb1
    (Reachable.create demoDb0 2025 100 7 demoReq demoCreated
      (Reachable.init demoDb0 rfl rfl (by decide)) rfl)⟩

/-- Witness for C2: receiving 2 of 5 on the demo order's first line. -/
theorem claim_C2_witness :
    (∀ it ∈ demoDb1.orderItems, 0 ≤ it.quantityReceived) ∧
    receiveOrderItem demoDb1 200 1 1 2 none
      = .ok (demoReceived.1, demoReceived.2.1, demoReceived.2.2.1, demoReceived.2.2.2) ∧
    (LineStatusMatchesQuantities demoReceived.2.1 ∧
     OrderStatusMatchesLines demoReceived.2.2.1.status
       (demoReceived.1.orderItems.filter (fun it => it.orderId == 1))) :=
  ⟨by decide, rfl,
   claim_C2 demoDb1 200 1 1 2 none demoReceived.1 demoReceived.2.1
     demoReceived.2.2.1 demoReceived.2.2.2 (by decide) rfl⟩

/-- Witness for C3: the demo database is well-formed and the confirm
characterization holds on it. -/
theorem claim_C3_witness :
    WF demoDb1 ∧
    (((∃ r, confirmOrder demoDb1 300 1 none = .ok r) ↔
      ∃ o, getOrder? demoDb1 1 = some o ∧ (o.status = "pending" ∨ o.status = "partial")) ∧
    (∀ db' o' us, confirmOrder demoDb1 300 1 none = .ok (db', o', us) →
      o'.status = "completed" ∧ getOrder? db' 1 = some o' ∧
      (∀ it ∈ demoDb1.orderItems, it.orderId = 1 →
        (0 < it.quantityOrdered - it.quantityReceived →
          getItem? db' it.id = some { it with
            quantityReceived := it.quantityOrdered,
            status := "completed", receivedAt := some 300 } ∧
          ∃ p, getProduct? demoDb1 it.inventoryItemId = some p ∧
            getProduct? db' it.inventoryItemId
              = some { p with stock := p.stock + (it.quantityOrdered - it.quantityReceived) } ∧
            (⟨it.inventoryItemId, p.nombre, p.stock, it.quantityOrdered - it.quantityReceived,
               p.stock + (it.quantityOrdered - it.quantityReceived)⟩ : StockUpdate) ∈ us) ∧
        (it.quantityOrdered - it.quantityReceived ≤ 0 →
          getItem? db' it.id = some it ∧
          getProduct? db' it.inventoryItemId = getProduct? demoDb1 it.inventoryItemId ∧
          ∃ p, getProduct? demoDb1 it.inventoryItemId = some p ∧
            (⟨it.inventoryItemId, p.nombre, p.stock, 0, p.stock⟩ : StockUpdate) ∈ us)))) :=
  ⟨by decide, claim_C3 demoDb1 300 1 none (by decide)⟩

/-- Witness for C4: the receive validation characterization at the demo
database. -/
theorem claim_C4_witness :
    WF demoDb1 ∧
    (((∃ e, receiveOrderItem demoDb1 200 1 1 2 none = .error e) ↔
      ((2 : Int) ≤ 0 ∨ findOrderItem? demoDb1 1 1 = none ∨
        ∃ it, findOrderItem? demoDb1 1 1 = some it ∧
          ((∃ o, getOrder? demoDb1 it.orderId = some o ∧ o.status = "cancelled") ∨
            it.quantityOrdered < it.quantityReceived + 2))) ∧
    (∀ db' item' order' su,
      receiveOrderItem demoDb1 200 1 1 2 none = .ok (db', item', order', su) →
      ∃ it p, findOrderItem? demoDb1 1 1 = some it ∧
        getProduct? demoDb1 it.inventoryItemId = some p ∧
        su = ⟨it.inventoryItemId, p.nombre, p.stock, 2, p.stock + 2⟩ ∧
        getProduct? db' it.inventoryItemId = some { p with stock := p.stock + 2 } ∧
        (∀ pid, pid ≠ it.inventoryItemId → getProduct? db' pid = getProduct? demoDb1 pid))) :=
  ⟨by decide, claim_C4 demoDb1 200 1 1 2 none (by decide)⟩

/-- Witness for C5: the demo creation drops nothing, snapshots prices and
computes the totals. -/
theorem claim_C5_witness :
    createOrder demoDb0 2025 100 7 demoReq
      = .ok (demoCreated.1, demoCreated.2.1, demoCreated.2.2) ∧
    (demoCreated.2.2.map (fun b => (b.inventoryItemId, b.quantityOrdered))
        = (demoReq.items.filter (fun i => decide (0 < i.quantityOrdered))).map
            (fun i => (i.inventoryItemId, i.quantityOrdered)) ∧
     (∀ b ∈ demoCreated.2.2,
        ∃ p, getProduct? demoDb0 b.inventoryItemId = some p ∧ b.priceAtTime = p.precio) ∧
     demoCreated.2.1.totalItems = (demoCreated.2.2.map (fun b => b.quantityOrdered)).sum ∧
     demoCreated.2.1.totalPrice
        = (demoCreated.2.2.map (fun b => b.priceAtTime * (b.quantityOrdered : Rat))).sum) :=
  ⟨rfl, (claim_C5 demoDb0 2025 100 7 demoReq).1 demoCreated.1 demoCreated.2.1 demoCreated.2.2 rfl⟩

/-- Witness for C6: a request naming the nonexistent product 3 is rejected
naming that id. -/
theorem claim_C6_witness :
    ("general" : String) ≠ "" ∧
    demoBadReq.items.find? (fun i => (getProduct? demoDb0 i.inventoryItemId).isNone)
      = some ⟨3, 2⟩ ∧
    (getProduct? demoDb0 (3 : Nat) = none ∧
      createOrder demoDb0 2025 100 7 demoBadReq
        = .error (.badRequest ("Producto con ID " ++ Nat.repr 3 ++ " no encontrado"))) :=
  ⟨by decide, by decide, claim_C6 demoDb0 2025 100 7 demoBadReq ⟨3, 2⟩ (by decide) (by decide)⟩

/-- Witness for C7: cancelling the pending demo order. -/
theorem claim_C7_witness :
    cancelOrder demoDb1 1 (some "mal") = .ok (demoCancelled.1, demoCancelled.2) ∧
    (demoCancelled.1.inventoryItems = demoDb1.inventoryItems ∧
     demoCancelled.1.orderItems = demoDb1.orderItems ∧
     demoCancelled.2.status = "cancelled" ∧
     getOrder? demoCancelled.1 1 = some demoCancelled.2 ∧
     ∃ order, getOrder? demoDb1 1 = some order ∧
       demoCancelled.2.notes = appendNote order.notes "\nCancelado: " (some "mal") ∧
       demoCancelled.1.orders = demoDb1.orders.map (fun x => if x.id == 1 then
         { x with
           status := "cancelled",
           notes := appendNote order.notes "\nCancelado: " (some "mal") } else x)) :=
  ⟨rfl, (claim_C7 demoDb1 1 (some "mal")).2 demoCancelled.1 demoCancelled.2 rfl⟩

/-- Witness for C8: on a state whose 2025 numbers are ORD-2025-001 and
ORD-2025-007 (all sequences in 1..999), the amended theorem applies. -/
theorem claim_C8_witness :
    (∀ s ∈ ((cexGood.map (fun o => o.orderNumber)).filter
        (fun s => strStartsWith s (yearPfx 2025))),
      ∃ k, 1 ≤ k ∧ k ≤ 999 ∧ s = yearPfx 2025 ++ padStart3 (Nat.repr k)) ∧
    (generateOrderNumber 2025 cexGood
      = yearPfx 2025 ++ padStart3 (Nat.repr
          ((((cexGood.map (fun o => o.orderNumber)).filter
              (fun s => strStartsWith s (yearPfx 2025))).map parseSeq).foldr max 0 + 1)) ∧
     (∀ s ∈ (cexGood.map (fun o => o.orderNumber)).filter
          (fun s => strStartsWith s (yearPfx 2025)),
        parseSeq s < parseSeq (generateOrderNumber 2025 cexGood)) ∧
     strStartsWith (generateOrderNumber 2025 cexGood) (yearPfx 2025) = true ∧
     (∀ y2 : Nat, y2 ≠ 2025 → yearPfx y2 ≠ yearPfx 2025)) := by
  have hH : ∀ s ∈ ((cexGood.map (fun o => o.orderNumber)).filter
      (fun s => strStartsWith s (yearPfx 2025))),
      ∃ k, 1 ≤ k ∧ k ≤ 999 ∧ s = yearPfx 2025 ++ padStart3 (Nat.repr k) := by
    intro s hs
    have hl : ((cexGood.map (fun o => o.orderNumber)).filter
        (fun s => strStartsWith s (yearPfx 2025)))
        = ["ORD-2025-001", "ORD-2025-007"] := rfl
    rw [hl] at hs
    rcases List.mem_cons.mp hs with rfl | hs2
    · exact ⟨1, by decide, by decide, by decide⟩
    · rcases List.mem_cons.mp hs2 with rfl | hs3
      · exact ⟨7, by decide, by decide, by decide⟩
      · exact absurd hs3 (List.not_mem_nil s)
  exact ⟨hH, claim_C8 2025 cexGood hH⟩

/-- Witness for C9: the reachable demo database has no duplicate
`(orderId, inventoryItemId)` pair, and a duplicate-product request fails. -/
theorem claim_C9_witness :
    (Reachable demoDb1 ∧
      (demoDb1.orderItems.map (fun it => (it.orderId, it.inventoryItemId))).Nodup) ∧
    (¬ ((demoDupReq.items.filter (fun i => decide (0 < i.quantityOrdered))).map
        (fun i => i.inventoryItemId)).Nodup ∧
      ∃ e, createOrder demoDb0 2025 100 7 demoDupReq = .error e) := by
  have hreach : Reachable demoDb1 :=
    Reachable.create demoDb0 2025 100 7 demoReq demoCreated
      (Reachable.init demoDb0 rfl rfl (by decide)) rfl
  exact ⟨⟨hreach, claim_C9.1 demoDb1 hreach⟩,
    by decide, claim_C9.2 demoDb0 2025 100 7 demoDupReq (by decide)⟩

/-- Witness for C10: the missing-product line of `demoBad2Req` has
quantity 0, yet the whole request is rejected naming an offending id. -/
theorem claim_C10_witness :
    (("general" : String) ≠ "" ∧ (⟨3, 0⟩ : ReqItem) ∈ demoBad2Req.items ∧
      getProduct? demoDb0 (3 : Nat) = none ∧ ((0 : Int) ≤ 0)) ∧
    (∃ b, demoBad2Req.items.find?
        (fun i => (getProduct? demoDb0 i.inventoryItemId).isNone) = some b ∧
      getProduct? demoDb0 b.inventoryItemId = none ∧
      createOrder demoDb0 2025 100 7 demoBad2Req
        = .error (.badRequest ("Producto con ID " ++ Nat.repr b.inventoryItemId
            ++ " no encontrado"))) :=
  ⟨⟨by decide, by decide, by decide, by decide⟩,
   claim_C10 demoDb0 2025 100 7 demoBad2Req ⟨3, 0⟩ (by decide) (by decide) (by decide)
     (by decide)⟩

end Koloa
